import Mathlib

/- Shallow embedding of src/export.py, a Blender to PlayCanvas JSON exporter.
   Coordinates, normals, UV coordinates and colour channels are modelled as
   integers (the source uses floats only as opaque payload for the claims
   checked here); the float infinity seeds of the bounding box loop are
   modelled by the XFloat type below.  Line numbers in doc comments refer to
   src/export.py. -/

/-- A 3-component vector; models mathutils.Vector and vertex coordinates. -/
structure Vec3 where
  x : Int
  y : Int
  z : Int
deriving DecidableEq, Repr

/-- A material datablock.  The ident field models object identity: two
materials with the same name but different ident are distinct datablocks. -/
structure Material where
  name : String
  ident : Nat
deriving DecidableEq, Repr

/-- A bmesh vertex: an identity tag plus its coordinate (vert.co). -/
structure BMVert where
  vid : Nat
  co : Vec3
deriving DecidableEq, Repr

/-- A face corner (loop).  It references its vertex and carries the
per-corner normal, one UV pair per UV layer of the owning mesh (aligned
with the uvLayerNames list of the mesh), and a colour triple that is read
only when the mesh has an active vertex colour layer.  Colour channels are
stored already in byte form, abstracting the float to byte conversion of
lines 419..421. -/
structure BMLoop where
  vert : BMVert
  normal : Vec3
  uvs : List (Int × Int)
  color : Int × Int × Int
deriving DecidableEq, Repr

/-- A polygonal face with its material index and ordered corner list. -/
structure BMFace where
  materialIndex : Nat
  loops : List BMLoop
deriving DecidableEq, Repr

/-- Mutable mesh geometry as bmesh holds it: vertex list, face list, and the
layer metadata (UV layer names, presence of an active colour layer) that
bmesh copies along with the geometry. -/
structure BMesh where
  verts : List BMVert
  faces : List BMFace
  uvLayerNames : List String
  hasColorLayer : Bool
deriving DecidableEq, Repr

/-- A mesh datablock (bpy.types.Mesh): a name, a material slot list and the
geometry. -/
structure Mesh where
  name : String
  materials : List Material
  geom : BMesh
deriving DecidableEq, Repr

/-- A scene object.  The data field is some mesh for MESH objects and none
for objects without mesh data (empties, lamps, cameras).  The parent field
holds the name of the parent object, if any.  localTranslation and
localEulerDegrees carry the decomposition of matrix_local used on lines
287..291 (Euler angles already converted to degrees); scale is the scale
property of the object itself, read on line 300. -/
structure Obj where
  name : String
  data : Option Mesh
  parent : Option String
  localTranslation : Vec3
  localEulerDegrees : Vec3
  scale : Vec3
deriving DecidableEq, Repr

/-- Well-formedness of bmesh geometry: every corner references a vertex that
is present in the vertex list (bmesh guarantees this by construction, since
faces are built from the verts of the same bmesh). -/
def BMesh.wf (bm : BMesh) : Prop :=
  ∀ f ∈ bm.faces, ∀ l ∈ f.loops, l.vert ∈ bm.verts

/-- A Python float that is either a finite value or positive infinity, as
used by the bounding box seeds on lines 350..351. -/
inductive XFloat where
  | inf : XFloat
  | val : Int → XFloat
deriving DecidableEq, Repr

/-- Python min over XFloat values. -/
def fmin : XFloat → XFloat → XFloat
  | XFloat.inf, b => b
  | XFloat.val a, XFloat.inf => XFloat.val a
  | XFloat.val a, XFloat.val b => XFloat.val (min a b)

/-- Python max over XFloat values. -/
def fmax : XFloat → XFloat → XFloat
  | XFloat.inf, _ => XFloat.inf
  | XFloat.val _, XFloat.inf => XFloat.inf
  | XFloat.val a, XFloat.val b => XFloat.val (max a b)

/-- The bounding box record emitted for a mesh, keys min and max. -/
structure AABB where
  min : List XFloat
  max : List XFloat
deriving DecidableEq, Repr

/-- One iteration of the accumulator loop of lines 356..361 for a single
corner.  Note that each max update reads the min accumulator component that
was just updated in the same iteration, exactly as the source writes
maxpos with max(coordinate, minpos) after assigning minpos. -/
def bbStep (acc : (XFloat × XFloat × XFloat) × (XFloat × XFloat × XFloat)) (c : Vec3) :
    (XFloat × XFloat × XFloat) × (XFloat × XFloat × XFloat) :=
  let mn := acc.1
  let mn0 := fmin (XFloat.val c.x) mn.1
  let mn1 := fmin (XFloat.val c.y) mn.2.1
  let mn2 := fmin (XFloat.val c.z) mn.2.2
  let mx0 := fmax (XFloat.val c.x) mn0
  let mx1 := fmax (XFloat.val c.y) mn1
  let mx2 := fmax (XFloat.val c.z) mn2
  ((mn0, mn1, mn2), (mx0, mx1, mx2))

/-- MeshParser.calculate_bounding_box, lines 348..366.  If the face list is
empty both extremes are set to the origin; otherwise the accumulators start
at positive infinity and every corner of every face is folded through
bbStep in iteration order. -/
def calculate_bounding_box (bm : BMesh) : AABB :=
  if bm.faces.isEmpty then
    { min := [XFloat.val 0, XFloat.val 0, XFloat.val 0],
      max := [XFloat.val 0, XFloat.val 0, XFloat.val 0] }
  else
    let r := bm.faces.foldl
      (fun acc f => f.loops.foldl (fun a l => bbStep a l.vert.co) acc)
      ((XFloat.inf, XFloat.inf, XFloat.inf), (XFloat.inf, XFloat.inf, XFloat.inf))
    { min := [r.1.1, r.1.2.1, r.1.2.2], max := [r.2.1, r.2.2.1, r.2.2.2] }

/-- Fan triangulation of a single polygonal face: a face with corners
l0, l1, ..., lk yields triangles (l0, li, li+1).  A face with n corners,
n at least 3, yields n - 2 triangles, each keeping the material index of
the source face; this models bmesh.ops.triangulate (line 465), whose
output triangle count is n - 2 per face regardless of the cut choice. -/
def triangulateFace (f : BMFace) : List BMFace :=
  match f.loops with
  | [] => []
  | l0 :: rest =>
    (rest.zip rest.tail).map
      (fun p => { materialIndex := f.materialIndex, loops := [l0, p.1, p.2] })

/-- Triangulate every face of a bmesh (line 465). -/
def triangulateBM (bm : BMesh) : BMesh :=
  { bm with faces := bm.faces.flatMap triangulateFace }

/-- Conversion of a mesh datablock to a fresh bmesh (lines 461..462). -/
def from_mesh (m : Mesh) : BMesh := m.geom

/-- The face removal loop of lines 472..478: every face whose material index
differs from mat_id is collected and removed, hence the faces that match
mat_id are kept in order. -/
def keepMaterialFaces (bm : BMesh) (matId : Nat) : BMesh :=
  { bm with faces := bm.faces.filter (fun f => f.materialIndex == matId) }

/-- Test used by line 485: vert in face.verts. -/
def vertInFace (v : BMVert) (f : BMFace) : Bool :=
  f.loops.any (fun l => l.vert == v)

/-- The isolated vertex removal of lines 481..489: a vertex is removed from
the remove list exactly when some remaining face references it, so after
the removal pass a vertex survives iff some face of the bmesh contains it. -/
def pruneIsolatedVerts (bm : BMesh) : BMesh :=
  { bm with verts := bm.verts.filter (fun v => bm.faces.any (fun f => vertInFace v f)) }

/-- One entry of the mesh list: the tuple (mesh_name, bmesh, instance_list)
built by separate_mesh_by_material. -/
structure SubMesh where
  name : String
  bm : BMesh
  instances : List Obj
deriving DecidableEq, Repr

/-- The per-material loop of lines 469..498, written with an explicit
material index counter in place of enumerate.  For each material slot the
triangulated source is copied, foreign faces are removed, isolated vertices
are pruned, the copy is named (mesh name alone when there is exactly one
material slot) and it is kept only when its vertex list is nonempty. -/
def separateAux (old : BMesh) (meshName : String) (single : Bool) (obj : List Obj) :
    List Material → Nat → List SubMesh
  | [], _ => []
  | mat :: rest, matId =>
    let new_mesh := pruneIsolatedVerts (keepMaterialFaces old matId)
    let mesh_name := if single then meshName else meshName ++ "." ++ mat.name
    (if new_mesh.verts.isEmpty then [] else [{ name := mesh_name, bm := new_mesh, instances := obj }])
      ++ separateAux old meshName single obj rest (matId + 1)

/-- separate_mesh_by_material, lines 452..502.  The mesh is converted to
bmesh and triangulated; with a nonempty material slot list it is split per
material via separateAux, otherwise the whole triangulated mesh is returned
as a single entry named after the mesh. -/
def separate_mesh_by_material (mesh : Mesh) (obj : List Obj) : List SubMesh :=
  let old_mesh := triangulateBM (from_mesh mesh)
  if mesh.materials.isEmpty then
    [{ name := mesh.name, bm := old_mesh, instances := obj }]
  else
    separateAux old_mesh mesh.name (mesh.materials.length == 1) obj mesh.materials 0

/-- The synthetic placeholder mesh built on lines 184..190: three vertices at
the origin forming a single triangle, no materials, no layers.  Its loops
carry default attribute payloads. -/
def EMPTY_MESH : Mesh :=
  let v1 : BMVert := { vid := 0, co := { x := 0, y := 0, z := 0 } }
  let v2 : BMVert := { vid := 1, co := { x := 0, y := 0, z := 0 } }
  let v3 : BMVert := { vid := 2, co := { x := 0, y := 0, z := 0 } }
  let mkLoop : BMVert → BMLoop := fun v =>
    { vert := v, normal := { x := 0, y := 0, z := 0 }, uvs := [], color := (0, 0, 0) }
  { name := "EmptyMesh",
    materials := [],
    geom :=
      { verts := [v1, v2, v3],
        faces := [{ materialIndex := 0, loops := [mkLoop v1, mkLoop v2, mkLoop v3] }],
        uvLayerNames := [],
        hasColorLayer := false } }

/-- Lines 196..199: the data a hierarchy object contributes to the mesh
grouping; objects without mesh data stand in for the shared EMPTY_MESH. -/
def dataOf (o : Obj) : Mesh :=
  match o.data with
  | some d => d
  | none => EMPTY_MESH

/-- One step of building the raw_meshes dict of lines 192..204: append the
object to the group whose key equals the data name, or add a new group at
the end.  The group also stores the mesh datablock itself; the source keeps
only the name and later resolves it through the global datablock registry
(line 209), which yields the same mesh because datablock names are unique
in the host. -/
def addToGroups (gs : List (Mesh × List Obj)) (d : Mesh) (o : Obj) : List (Mesh × List Obj) :=
  match gs with
  | [] => [(d, [o])]
  | (m, os) :: t =>
    if m.name == d.name then (m, os ++ [o]) :: t else (m, os) :: addToGroups t d o

/-- The raw_meshes dict of lines 192..204 in insertion order. -/
def groupByData (objs : List Obj) : List (Mesh × List Obj) :=
  objs.foldl (fun gs o => addToGroups gs (dataOf o) o) []

/-- HeirachyExporter.generate_mesh_list, lines 177..213: group the objects
by mesh datablock, then split every group mesh by material, concatenating
the resulting sub-mesh lists in group order. -/
def generate_mesh_list (objs : List Obj) : List SubMesh :=
  (groupByData objs).flatMap (fun g => separate_mesh_by_material g.1 g.2)

/-- HeirachyExporter.generate_uv_list, lines 168..175: the UV layer names of
every MESH object in hierarchy order, concatenated without deduplication. -/
def generate_uv_list (objs : List Obj) : List String :=
  objs.flatMap (fun o =>
    match o.data with
    | some d => d.geom.uvLayerNames
    | none => [])

/-- One attribute record of the vertices entry: type string, component
count, flattened scalar data. -/
structure VertAttrib where
  type : String
  components : Nat
  data : List Int
deriving DecidableEq, Repr

/-- The dict a MeshParser instance represents, plus its vert_data side
output (lines 325..449). -/
structure MeshParserOut where
  vertices : Nat
  indices : List Nat
  aabb : AABB
  type : String
  base : Nat
  count : Nat
  vert_data : List (String × VertAttrib)
deriving DecidableEq, Repr

/-- The flat loop list of the temporary mesh produced by to_mesh on lines
376..377: the corners of all faces in face order; the index of a loop is
its position in this list. -/
def loopsOf (bm : BMesh) : List BMLoop :=
  bm.faces.flatMap (fun f => f.loops)

/-- Lines 400..411: the position array, filled at slot 3*loop.index, which
equals flat concatenation in loop order since loop.index is the position of
the loop in the loop list. -/
def posData (bm : BMesh) : List Int :=
  (loopsOf bm).flatMap (fun l => [l.vert.co.x, l.vert.co.y, l.vert.co.z])

/-- Lines 412..415: the split normal array. -/
def normalData (bm : BMesh) : List Int :=
  (loopsOf bm).flatMap (fun l => [l.normal.x, l.normal.y, l.normal.z])

/-- Lines 403..406 for the UV layer at position k of the mesh layer list:
two scalars per corner. -/
def uvSlotData (bm : BMesh) (k : Nat) : List Int :=
  (loopsOf bm).flatMap (fun l =>
    let p := l.uvs.getD k (0, 0)
    [p.1, p.2])

/-- Lines 417..422: the colour array, four scalars per corner with alpha
forced to 255. -/
def colorData (bm : BMesh) : List Int :=
  (loopsOf bm).flatMap (fun l => [l.color.1, l.color.2.1, l.color.2.2, 255])

/-- The vert_data dict of lines 424..447 as an association list in insertion
order: position, normal, the colour entry when an active colour layer
exists, then one texCoord entry per UV layer of this mesh whose numeric
suffix is the index of the first occurrence of the layer name in the
hierarchy UV list (line 444).  Per-mesh layer names are unique in the host,
so keying the dict by name and walking the layers positionally agree. -/
def vertDataOf (bm : BMesh) (uvList : List String) : List (String × VertAttrib) :=
  [("position", { type := "float32", components := 3, data := posData bm }),
   ("normal", { type := "float32", components := 3, data := normalData bm })]
  ++ (if bm.hasColorLayer then
        [("color", { type := "uint8", components := 4, data := colorData bm })]
      else [])
  ++ bm.uvLayerNames.enum.map (fun q =>
        ("texCoord" ++ toString (uvList.indexOf q.2),
         { type := "float32", components := 2, data := uvSlotData bm q.1 }))

/-- MeshParser, lines 325..449: the emitted mesh dict.  The indices list
appends loop.index in iteration order (line 402), count is its length
(line 449), the bounding box comes from calculate_bounding_box and the
vertices field is the id of this mesh in the mesh list. -/
def meshParser (bm : BMesh) (idNum : Nat) (uvList : List String) : MeshParserOut :=
  { vertices := idNum,
    indices := (loopsOf bm).enum.map (fun q => q.1),
    aabb := calculate_bounding_box bm,
    type := "triangles",
    base := 0,
    count := ((loopsOf bm).enum.map (fun q => q.1)).length,
    vert_data := vertDataOf bm uvList }

/-- A node record of the main document. -/
structure NodeRec where
  name : String
  position : List Int
  rotation : List Int
  scale : List Int
deriving DecidableEq, Repr

/-- A meshInstances record of the main document. -/
structure InstanceRec where
  node : Nat
  mesh : Nat
deriving DecidableEq, Repr

/-- The instances of the mesh list in enumeration order (meshes outer loop,
instances inner loop), shared by generate_node_data, generate_instance_data
and export_mappings. -/
def instancesOf (ml : List SubMesh) : List Obj :=
  ml.flatMap (fun m => m.instances)

/-- The per-instance node record of lines 286..301.  With a parent the
position and rotation come from the local transform decomposition; without
a parent they are zero vectors.  In both branches the scale key reads the
scale property of the instance itself (line 300); the scale value computed
on lines 291 and 295 is never emitted. -/
def nodeRecord (o : Obj) : NodeRec :=
  if o.parent.isSome then
    { name := o.name,
      position := [o.localTranslation.x, o.localTranslation.y, o.localTranslation.z],
      rotation := [o.localEulerDegrees.x, o.localEulerDegrees.y, o.localEulerDegrees.z],
      scale := [o.scale.x, o.scale.y, o.scale.z] }
  else
    { name := o.name,
      position := [0, 0, 0],
      rotation := [0, 0, 0],
      scale := [o.scale.x, o.scale.y, o.scale.z] }

/-- The node_data list of lines 283..302. -/
def generate_node_data (ml : List SubMesh) : List NodeRec :=
  (instancesOf ml).map nodeRecord

/-- The node_name_list of line 305. -/
def node_name_list (ml : List SubMesh) : List String :=
  (generate_node_data ml).map (fun n => n.name)

/-- The parent resolution loop of lines 304..313: an instance whose parent
name occurs in the node name list gets 1 plus the index of the first
occurrence of that name; every other instance gets 0. -/
def generate_parent_list (ml : List SubMesh) : List Int :=
  let names := node_name_list ml
  (instancesOf ml).map (fun o =>
    match o.parent with
    | some p => if p ∈ names then ((names.indexOf p : Nat) : Int) + 1 else 0
    | none => 0)

/-- HeirachyExporter.generate_instance_data, lines 265..278, with the
mesh_id enumeration and the node_id counter made explicit arguments. -/
def instanceDataAux : List SubMesh → Nat → Nat → List InstanceRec
  | [], _, _ => []
  | m :: t, meshId, nodeId =>
    (List.range m.instances.length).map (fun k => { node := nodeId + k, mesh := meshId })
      ++ instanceDataAux t (meshId + 1) (nodeId + m.instances.length)

/-- The meshInstances list: mesh ids enumerate from 0, node ids from 1
(index 0 is the synthetic root node). -/
def generate_instance_data (ml : List SubMesh) : List InstanceRec :=
  instanceDataAux ml 0 1

/-- The synthetic root node of lines 138..143. -/
def rootNode : NodeRec :=
  { name := "RootNode", position := [0, 0, 0], rotation := [0, 0, 0], scale := [1, 1, 1] }

/-- The model part of the main document of lines 134..161. -/
structure MainDoc where
  version : Nat
  nodes : List NodeRec
  parents : List Int
  meshes : List MeshParserOut
  meshInstances : List InstanceRec
deriving DecidableEq, Repr

/-- Assembly of the main document by HeirachyExporter, lines 112..161:
the UV list and the mesh list are generated, each mesh is parsed with its
position as id, the root node and its -1 parent entry are prepended. -/
def exportMainDoc (objs : List Obj) : MainDoc :=
  let uvList := generate_uv_list objs
  let ml := generate_mesh_list objs
  { version := 2,
    nodes := rootNode :: generate_node_data ml,
    parents := (-1 : Int) :: generate_parent_list ml,
    meshes := ml.enum.map (fun q => meshParser q.2.bm q.1 uvList),
    meshInstances := generate_instance_data ml }

/-- The mapping_list of lines 224..227: each sub-mesh repeated once per
instance, in enumeration order. -/
def mappingListOf (ml : List SubMesh) : List SubMesh :=
  ml.flatMap (fun m => m.instances.map (fun _ => m))

/-- Python dict insertion for the materials dict of line 247: an existing
key keeps its position and gets the new value, a new key is appended. -/
def dictInsert (d : List (String × Material)) (k : String) (v : Material) :
    List (String × Material) :=
  match d with
  | [] => [(k, v)]
  | (k0, v0) :: t => if k0 == k then (k0, v) :: t else (k0, v0) :: dictInsert t k v

/-- The mat_id update of lines 234..236: the first face of the sub-mesh
sets mat_id, and a sub-mesh without faces leaves the variable at its
previous value. -/
def firstFaceMatId (s : SubMesh) (prev : Option Nat) : Option Nat :=
  match s.bm.faces with
  | [] => prev
  | f :: _ => some f.materialIndex

/-- The state threaded through the export_mappings loop of lines 233..255:
the emitted mapping paths, the materials dict in insertion order, and how
often the dummy material file was written.  mat_id is carried separately
because the source leaves the variable holding its previous value when a
sub-mesh has no faces; none models the state before any assignment, and a
branch that would read the unassigned variable (a NameError), index the
material slot list out of range (an IndexError) or read the first instance
of an empty instance list is modelled by a none result. -/
def export_mappings_loop (relpath : String) :
    List SubMesh → Option Nat → List (String × Material) →
    Option (List String × List (String × Material) × Nat)
  | [], _, mats => some ([], mats, 0)
  | s :: t, prevMat, mats =>
    let matId := firstFaceMatId s prevMat
    match s.instances with
    | [] => none
    | o :: _ =>
      match o.data with
      | some d =>
        if d.materials.isEmpty then
          match export_mappings_loop relpath t matId mats with
          | none => none
          | some (ps, ms, dw) => some ((relpath ++ "/None.json") :: ps, ms, dw + 1)
        else
          match matId with
          | none => none
          | some mid =>
            match d.materials.get? mid with
            | none => none
            | some mat =>
              match export_mappings_loop relpath t matId (dictInsert mats mat.name mat) with
              | none => none
              | some (ps, ms, dw) =>
                some ((relpath ++ "/" ++ mat.name ++ ".json") :: ps, ms, dw)
      | none =>
        match export_mappings_loop relpath t matId mats with
        | none => none
        | some (ps, ms, dw) => some ((relpath ++ "/None.json") :: ps, ms, dw + 1)

/-- HeirachyExporter.export_mappings, lines 215..263, for a mesh list: the
emitted mapping paths in instance enumeration order, the list of exported
materials (the dict values in key insertion order, line 263), and the count
of dummy material writes. -/
def export_mappings (relpath : String) (ml : List SubMesh) :
    Option (List String × List Material × Nat) :=
  (export_mappings_loop relpath (mappingListOf ml) none []).map
    (fun r => (r.1, r.2.1.map (fun p => p.2), r.2.2))

/-- The mapping path the specification expects for one mapping entry: the
relative path to the material file of the material used by the first face
of the sub-mesh, or the dummy None path when the first instance carries no
mesh data or its mesh has no materials.  The fallbacks for a missing first
instance, a missing first face or an out-of-range material index are
unreachable for mesh lists produced by the pipeline. -/
def pathFor (relpath : String) (s : SubMesh) : String :=
  match s.instances with
  | [] => relpath ++ "/None.json"
  | o :: _ =>
    match o.data with
    | none => relpath ++ "/None.json"
    | some d =>
      if d.materials.isEmpty then relpath ++ "/None.json"
      else
        match s.bm.faces with
        | [] => relpath ++ "/None.json"
        | f :: _ =>
          relpath ++ "/" ++ ((d.materials.getD f.materialIndex { name := "None", ident := 0 }).name) ++ ".json"

/-- The material json files written by the MaterialExporter runs of lines
129..131 during one hierarchy export (line 583 fixes the file name as the
material name plus .json); none models a crashed export_mappings. -/
def writtenMaterialFiles (relpath : String) (objs : List Obj) : Option (List String) :=
  (export_mappings relpath (generate_mesh_list objs)).map
    (fun r => r.2.1.map (fun m => m.name ++ ".json"))

/-- The zero vector, used as default payload in the concrete examples. -/
def vzero : Vec3 := { x := 0, y := 0, z := 0 }

/-- A loop for the concrete examples: vertex with tag n at coordinate c,
default attribute payloads. -/
def exLoop (n : Nat) (c : Vec3) : BMLoop :=
  { vert := { vid := n, co := c }, normal := vzero, uvs := [], color := (0, 0, 0) }

/-- Witness input for the partition claim: two material slots, one triangle
per material, sharing the edge between vertices 1 and 2. -/
def w1Mesh : Mesh :=
  { name := "W1",
    materials := [{ name := "M0", ident := 0 }, { name := "M1", ident := 1 }],
    geom :=
      { verts := [{ vid := 0, co := vzero }, { vid := 1, co := vzero },
                  { vid := 2, co := vzero }, { vid := 3, co := vzero }],
        faces :=
          [{ materialIndex := 0, loops := [exLoop 0 vzero, exLoop 1 vzero, exLoop 2 vzero] },
           { materialIndex := 1, loops := [exLoop 1 vzero, exLoop 2 vzero, exLoop 3 vzero] }],
        uvLayerNames := [],
        hasColorLayer := false } }

/-- Witness input for the flattener claim: a single triangle carrying one UV
layer and an active colour layer. -/
def c2BM : BMesh :=
  { verts := [{ vid := 0, co := vzero }, { vid := 1, co := vzero }, { vid := 2, co := vzero }],
    faces :=
      [{ materialIndex := 0,
         loops :=
           [{ vert := { vid := 0, co := vzero }, normal := vzero, uvs := [(0, 0)], color := (1, 2, 3) },
            { vert := { vid := 1, co := vzero }, normal := vzero, uvs := [(1, 0)], color := (4, 5, 6) },
            { vert := { vid := 2, co := vzero }, normal := vzero, uvs := [(0, 1)], color := (7, 8, 9) }] }],
    uvLayerNames := ["UVMap"],
    hasColorLayer := true }

/-- A mesh datablock with no geometry and no materials. -/
def c3MeshA : Mesh :=
  { name := "MeshA", materials := [],
    geom := { verts := [], faces := [], uvLayerNames := [], hasColorLayer := false } }

/-- A second empty mesh datablock under a different name. -/
def c3MeshB : Mesh :=
  { name := "MeshB", materials := [],
    geom := { verts := [], faces := [], uvLayerNames := [], hasColorLayer := false } }

/-- A child object parented to the object named Parent. -/
def c3Child : Obj :=
  { name := "Child", data := some c3MeshA, parent := some "Parent",
    localTranslation := vzero, localEulerDegrees := vzero, scale := { x := 1, y := 1, z := 1 } }

/-- The root object of the small hierarchy. -/
def c3Parent : Obj :=
  { name := "Parent", data := some c3MeshB, parent := none,
    localTranslation := vzero, localEulerDegrees := vzero, scale := { x := 1, y := 1, z := 1 } }

/-- A two-object hierarchy listed child first, as children_recursive
(lines 598..604) lists descendants before their root. -/
def c3Objs : List Obj := [c3Child, c3Parent]

/-- First material of the material loss example. -/
def c5MatA : Material := { name := "MatA", ident := 0 }

/-- Second material of the material loss example; no face uses it. -/
def c5MatB : Material := { name := "MatB", ident := 1 }

/-- A mesh with two material slots whose only face uses slot 0. -/
def c5Mesh : Mesh :=
  { name := "C5Mesh",
    materials := [c5MatA, c5MatB],
    geom :=
      { verts := [{ vid := 0, co := vzero }, { vid := 1, co := vzero }, { vid := 2, co := vzero }],
        faces := [{ materialIndex := 0, loops := [exLoop 0 vzero, exLoop 1 vzero, exLoop 2 vzero] }],
        uvLayerNames := [],
        hasColorLayer := false } }

/-- The object carrying c5Mesh. -/
def c5Obj : Obj :=
  { name := "C5Obj", data := some c5Mesh, parent := none,
    localTranslation := vzero, localEulerDegrees := vzero, scale := { x := 1, y := 1, z := 1 } }

/-- A parentless object with a non-identity scale property. -/
def c6Obj : Obj :=
  { name := "Root", data := none, parent := none,
    localTranslation := { x := 5, y := 6, z := 7 },
    localEulerDegrees := { x := 8, y := 9, z := 10 },
    scale := { x := 2, y := 3, z := 4 } }

/-- A mesh with one UV layer named UVMap. -/
def c7MeshA : Mesh :=
  { name := "C7A", materials := [],
    geom := { verts := [], faces := [], uvLayerNames := ["UVMap"], hasColorLayer := false } }

/-- A second mesh, also with a UV layer named UVMap. -/
def c7MeshB : Mesh :=
  { name := "C7B", materials := [],
    geom := { verts := [], faces := [], uvLayerNames := ["UVMap"], hasColorLayer := false } }

/-- Two objects whose meshes both carry a layer named UVMap. -/
def c7Objs : List Obj :=
  [{ name := "A", data := some c7MeshA, parent := none,
     localTranslation := vzero, localEulerDegrees := vzero, scale := { x := 1, y := 1, z := 1 } },
   { name := "B", data := some c7MeshB, parent := none,
     localTranslation := vzero, localEulerDegrees := vzero, scale := { x := 1, y := 1, z := 1 } }]

/-- Failing input for the bounding box claim: one triangle whose corner with
the componentwise largest coordinates is visited before the last corner. -/
def c8BM : BMesh :=
  { verts := [{ vid := 0, co := { x := 1, y := 2, z := 3 } },
              { vid := 1, co := { x := 7, y := 8, z := 9 } },
              { vid := 2, co := { x := 4, y := 5, z := 6 } }],
    faces :=
      [{ materialIndex := 0,
         loops := [exLoop 0 { x := 1, y := 2, z := 3 },
                   exLoop 1 { x := 7, y := 8, z := 9 },
                   exLoop 2 { x := 4, y := 5, z := 6 }] }],
    uvLayerNames := [],
    hasColorLayer := false }

/-- A locator object without mesh data. -/
def c9Obj : Obj :=
  { name := "Locator", data := none, parent := none,
    localTranslation := vzero, localEulerDegrees := vzero, scale := { x := 1, y := 1, z := 1 } }

/-- A mesh with no materials, no vertices and no faces. -/
def c10Mesh : Mesh :=
  { name := "Bare", materials := [],
    geom := { verts := [], faces := [], uvLayerNames := [], hasColorLayer := false } }

/-- Helper: a flatMap whose blocks all have length c has length c times the
list length. -/
theorem flatMap_length_const {α β : Type} (l : List α) (f : α → List β) (c : Nat)
    (h : ∀ a ∈ l, (f a).length = c) : (l.flatMap f).length = c * l.length := by
  induction l with
  | nil => simp
  | cons a t ih =>
    simp only [List.flatMap_cons, List.length_append, List.length_cons]
    rw [h a (by simp), ih (fun b hb => h b (by simp [hb]))]
    ring

/-- C10: for a mesh whose material list is empty, separate_mesh_by_material
returns exactly one sub-mesh, named exactly after the mesh, whose geometry
is the whole triangulated mesh: the full triangulated face set and the full
vertex list (no vertex pruning), and the sub-mesh is kept unconditionally,
in particular when it has zero vertices or zero faces. -/
theorem C10_no_materials_single_submesh (m : Mesh) (obj : List Obj)
    (h : m.materials = []) :
    separate_mesh_by_material m obj =
      [{ name := m.name, bm := triangulateBM (from_mesh m), instances := obj }] ∧
    (triangulateBM (from_mesh m)).verts = m.geom.verts := by
  refine ⟨?_, rfl⟩
  simp [separate_mesh_by_material, h]

/-- Witness for C10 on a mesh with zero vertices, zero faces and no
materials: the sub-mesh is still produced. -/
theorem C10_witness :
    separate_mesh_by_material c10Mesh [] =
      [{ name := c10Mesh.name, bm := triangulateBM (from_mesh c10Mesh), instances := [] }] ∧
    (triangulateBM (from_mesh c10Mesh)).verts = c10Mesh.geom.verts :=
  C10_no_materials_single_submesh c10Mesh [] rfl

/-- C8 evidence: calculate_bounding_box reports, per axis, max of the last
visited corner rather than the componentwise maximum.  On c8BM a corner at
coordinate (7, 8, 9) is present, yet the reported max is (4, 5, 6), the
coordinate of the last corner; the min side is the true minimum and the
zero-face case returns the origin box. -/
theorem C8_bounding_box_max_bug :
    calculate_bounding_box c8BM =
      { min := [XFloat.val 1, XFloat.val 2, XFloat.val 3],
        max := [XFloat.val 4, XFloat.val 5, XFloat.val 6] } ∧
    (c8BM.faces.any (fun f => f.loops.any (fun l => l.vert.co.z == 9))) = true ∧
    calculate_bounding_box
        { verts := [], faces := [], uvLayerNames := [], hasColorLayer := false } =
      { min := [XFloat.val 0, XFloat.val 0, XFloat.val 0],
        max := [XFloat.val 0, XFloat.val 0, XFloat.val 0] } := by
  refine ⟨?_, ?_, ?_⟩ <;> decide

/-- C6 counterexample: a parentless instance with scale property (2, 3, 4)
is emitted with position and rotation zero but with its own scale, not with
the identity scale the claim states. -/
theorem C6_counterexample :
    ((exportMainDoc [c6Obj]).nodes.map (fun n => (n.position, n.rotation, n.scale))) =
      [([0, 0, 0], [0, 0, 0], [1, 1, 1]), ([0, 0, 0], [0, 0, 0], [2, 3, 4])] ∧
    (([2, 3, 4] : List Int) ≠ [1, 1, 1]) := by
  exact ⟨by decide, by decide⟩

/-- C6 amended: an instance with no parent is emitted with zero position and
zero rotation regardless of its transform, while the scale key carries the
scale property of the object itself (line 300), not the identity scale. -/
theorem C6_root_transform_amended (o : Obj) (h : o.parent = none) :
    nodeRecord o =
      { name := o.name, position := [0, 0, 0], rotation := [0, 0, 0],
        scale := [o.scale.x, o.scale.y, o.scale.z] } := by
  simp [nodeRecord, h]

/-- Witness for the amended C6 at the concrete parentless object. -/
theorem C6_witness :
    nodeRecord c6Obj =
      { name := c6Obj.name, position := [0, 0, 0], rotation := [0, 0, 0],
        scale := [c6Obj.scale.x, c6Obj.scale.y, c6Obj.scale.z] } :=
  C6_root_transform_amended c6Obj rfl

/-- Helper: three position scalars per corner. -/
theorem posData_length (bm : BMesh) : (posData bm).length = 3 * (loopsOf bm).length :=
  flatMap_length_const _ _ 3 (fun _ _ => rfl)

/-- Helper: three normal scalars per corner. -/
theorem normalData_length (bm : BMesh) : (normalData bm).length = 3 * (loopsOf bm).length :=
  flatMap_length_const _ _ 3 (fun _ _ => rfl)

/-- Helper: four colour scalars per corner. -/
theorem colorData_length (bm : BMesh) : (colorData bm).length = 4 * (loopsOf bm).length :=
  flatMap_length_const _ _ 4 (fun _ _ => rfl)

/-- Helper: two UV scalars per corner for every layer slot. -/
theorem uvSlotData_length (bm : BMesh) (k : Nat) :
    (uvSlotData bm k).length = 2 * (loopsOf bm).length :=
  flatMap_length_const _ _ 2 (fun _ _ => rfl)

/-- Helper: the index list of the parser has one entry per corner. -/
theorem meshParser_indices_length (bm : BMesh) (idNum : Nat) (uvList : List String) :
    (meshParser bm idNum uvList).indices.length = (loopsOf bm).length := by
  simp [meshParser]

/-- C2: for a triangulated sub-mesh the emitted index list has 3 entries per
triangle, equals the count field, and is exactly 0..cornerCount-1 in order
(no sharing across corners); every attribute array in vert_data carries
exactly one scalar group per index entry, with 3 components for position
and normal, 4 for the colour entry present exactly when a colour layer is
active, and 2 for each texCoord entry, one per UV layer of the mesh. -/
theorem C2_flattened_attribute_arrays (bm : BMesh) (idNum : Nat) (uvList : List String)
    (h3 : ∀ f ∈ bm.faces, f.loops.length = 3) :
    (meshParser bm idNum uvList).indices.length = 3 * bm.faces.length ∧
    (meshParser bm idNum uvList).count = (meshParser bm idNum uvList).indices.length ∧
    (meshParser bm idNum uvList).indices = List.range (meshParser bm idNum uvList).indices.length ∧
    (∀ p ∈ (meshParser bm idNum uvList).vert_data,
       p.2.data.length = p.2.components * (meshParser bm idNum uvList).indices.length) ∧
    ((meshParser bm idNum uvList).vert_data.map (fun p => (p.1, p.2.components))) =
      [("position", 3), ("normal", 3)]
      ++ (if bm.hasColorLayer then [("color", 4)] else [])
      ++ bm.uvLayerNames.enum.map (fun q => ("texCoord" ++ toString (uvList.indexOf q.2), 2)) := by
  have hloops : (loopsOf bm).length = 3 * bm.faces.length :=
    flatMap_length_const _ _ 3 h3
  have hidx : (meshParser bm idNum uvList).indices.length = (loopsOf bm).length :=
    meshParser_indices_length bm idNum uvList
  refine ⟨by rw [hidx, hloops], rfl, ?_, ?_, ?_⟩
  · show (loopsOf bm).enum.map (fun q => q.1) = _
    rw [hidx]
    exact List.enum_map_fst (loopsOf bm)
  · intro p hp
    rw [hidx]
    simp only [meshParser, vertDataOf, List.mem_append, List.mem_cons,
      List.not_mem_nil, or_false, List.mem_map] at hp
    rcases hp with ((hp | hp) | hp) | ⟨q, _, hp⟩
    · subst hp
      simpa using posData_length bm
    · subst hp
      simpa using normalData_length bm
    · by_cases hc : bm.hasColorLayer
      · simp only [hc, if_true, List.mem_cons, List.not_mem_nil, or_false] at hp
        subst hp
        simpa using colorData_length bm
      · simp [hc] at hp
    · subst hp
      simpa using uvSlotData_length bm q.1
  · simp only [meshParser, vertDataOf, List.map_append, List.map_map]
    by_cases hc : bm.hasColorLayer <;> simp [hc]

/-- Witness for C2 at the concrete one-triangle sub-mesh. -/
theorem C2_witness :
    (∀ f ∈ c2BM.faces, f.loops.length = 3) ∧
    (meshParser c2BM 0 ["UVMap"]).indices.length = 3 * c2BM.faces.length ∧
    (meshParser c2BM 0 ["UVMap"]).count = (meshParser c2BM 0 ["UVMap"]).indices.length :=
  ⟨by decide, (C2_flattened_attribute_arrays c2BM 0 ["UVMap"] (by decide)).1,
   (C2_flattened_attribute_arrays c2BM 0 ["UVMap"] (by decide)).2.1⟩

/-- Helper: an element of a list appears in its enumeration with some index. -/
theorem mem_enum_of_mem {α : Type} (l : List α) (a : α) (h : a ∈ l) :
    ∃ k, (k, a) ∈ l.enum := by
  rcases List.mem_iff_get.mp h with ⟨⟨k, hk⟩, hget⟩
  refine ⟨k, ?_⟩
  have h2 : k < l.enum.length := by simpa using hk
  have h3 : l.enum[k] = (k, l[k]) := List.getElem_enum l k h2
  have h4 : l.enum[k] ∈ l.enum := List.getElem_mem h2
  rw [h3] at h4
  have h5 : l[k] = a := by simpa [List.get_eq_getElem] using hget
  rwa [h5] at h4

/-- Helper: positions strictly before indexOf do not hold the element. -/
theorem get_before_indexOf_ne (l : List String) (a : String) :
    ∀ i, i < l.indexOf a → l.get? i ≠ some a := by
  induction l with
  | nil => intro i hi; simp [List.indexOf_nil] at hi
  | cons b t ih =>
    intro i hi
    by_cases hba : b = a
    · simp [List.indexOf_cons, hba] at hi
    · rw [List.indexOf_cons] at hi
      have hbeq : (b == a) = false := by simp [hba]
      rw [hbeq] at hi
      simp only [cond_false] at hi
      cases i with
      | zero =>
        intro hcon
        simp only [List.get?_cons_zero, Option.some.injEq] at hcon
        exact hba hcon
      | succ k =>
        rw [List.get?_cons_succ]
        exact ih k (by omega)

/-- C7 counterexample: two meshes each carrying a layer named UVMap make the
registry hold that name twice, so it is not an ordered set of distinct
names. -/
theorem C7_counterexample :
    generate_uv_list c7Objs = ["UVMap", "UVMap"] ∧
    ¬ (["UVMap", "UVMap"] : List String).Nodup :=
  ⟨by decide, by decide⟩

/-- C7 amended: the registry holds one entry per UV layer per MESH object in
hierarchy order, possibly with repeated names (exactly the names observed
across the meshes), and the numeric suffix of an emitted texCoord attribute
is the position of the first occurrence of the layer name in the registry. -/
theorem C7_registry_amended (objs : List Obj) (bm : BMesh) (uvList : List String)
    (nm : String) (hmem : nm ∈ bm.uvLayerNames) (huv : nm ∈ uvList) :
    (∀ s : String, s ∈ generate_uv_list objs ↔
        ∃ o ∈ objs, ∃ d, o.data = some d ∧ s ∈ d.geom.uvLayerNames) ∧
    ∃ a j, ("texCoord" ++ toString j, a) ∈ vertDataOf bm uvList ∧
      j < uvList.length ∧ uvList.get? j = some nm ∧
      ∀ i, i < j → uvList.get? i ≠ some nm := by
  constructor
  · intro s
    simp only [generate_uv_list, List.mem_flatMap]
    constructor
    · rintro ⟨o, ho, hs⟩
      refine ⟨o, ho, ?_⟩
      cases hd : o.data with
      | none => rw [hd] at hs; simp at hs
      | some d => rw [hd] at hs; exact ⟨d, rfl, hs⟩
    · rintro ⟨o, ho, d, hd, hs⟩
      exact ⟨o, ho, by rw [hd]; exact hs⟩
  · have hj : uvList.indexOf nm < uvList.length := List.indexOf_lt_length.mpr huv
    rcases mem_enum_of_mem bm.uvLayerNames nm hmem with ⟨k, hk⟩
    refine ⟨{ type := "float32", components := 2, data := uvSlotData bm k },
      uvList.indexOf nm, ?_, hj, ?_, get_before_indexOf_ne uvList nm⟩
    · simp only [vertDataOf, List.mem_append, List.mem_map]
      exact Or.inr ⟨(k, nm), hk, rfl⟩
    · rw [List.get?_eq_get hj]
      exact congrArg some (List.indexOf_get hj)

/-- Witness for the amended C7: one layer named UVMap at registry position 0. -/
theorem C7_witness :
    ("UVMap" ∈ c2BM.uvLayerNames ∧ "UVMap" ∈ (["UVMap"] : List String)) ∧
    ∃ a j, ("texCoord" ++ toString j, a) ∈ vertDataOf c2BM ["UVMap"] ∧
      j < (["UVMap"] : List String).length ∧
      (["UVMap"] : List String).get? j = some "UVMap" ∧
      ∀ i, i < j → (["UVMap"] : List String).get? i ≠ some "UVMap" :=
  ⟨⟨by decide, by decide⟩,
   (C7_registry_amended [] c2BM ["UVMap"] "UVMap" (by decide) (by decide)).2⟩

/-- Helper: the instance data list has one record per instance. -/
theorem instanceDataAux_length (t : List SubMesh) :
    ∀ (mid nid : Nat), (instanceDataAux t mid nid).length = (instancesOf t).length := by
  induction t with
  | nil => intro mid nid; rfl
  | cons m t ih =>
    intro mid nid
    simp only [instanceDataAux, instancesOf, List.flatMap_cons, List.length_append,
      List.length_map, List.length_range]
    simp only [instancesOf] at ih
    rw [ih]

/-- Helper: the record at position i of the instance data carries node id
nid + i. -/
theorem instanceDataAux_node (t : List SubMesh) :
    ∀ (mid nid i : Nat) (h : i < (instanceDataAux t mid nid).length),
      (instanceDataAux t mid nid)[i].node = nid + i := by
  induction t with
  | nil => intro mid nid i h; simp [instanceDataAux] at h
  | cons m t ih =>
    intro mid nid i h
    simp only [instanceDataAux] at h ⊢
    by_cases hb : i < m.instances.length
    · rw [List.getElem_append_left (by simpa using hb)]
      simp
    · have hge : ((List.range m.instances.length).map
          (fun k => ({ node := nid + k, mesh := mid } : InstanceRec))).length ≤ i := by
        simpa using Nat.not_lt.mp hb
      rw [List.getElem_append_right hge]
      have h2 : i - m.instances.length < (instanceDataAux t (mid + 1) (nid + m.instances.length)).length := by
        simp only [List.length_append, List.length_map, List.length_range] at h
        simpa using Nat.sub_lt_left_of_lt_add (Nat.not_lt.mp hb) (by omega)
      have := ih (mid + 1) (nid + m.instances.length) (i - m.instances.length) h2
      simp only [List.length_map, List.length_range]
      rw [this]
      omega

/-- C9: node ids and mesh-instance slots stay in lockstep: the record at
position i of meshInstances carries node id i + 1, and the node and parent
lists are one longer than the instance list (the synthetic root occupies
index 0); this covers objects without mesh data, which occupy a slot via
the placeholder mesh group. -/
theorem C9_lockstep (objs : List Obj) :
    (∀ i (h : i < (exportMainDoc objs).meshInstances.length),
       ((exportMainDoc objs).meshInstances.get ⟨i, h⟩).node = i + 1) ∧
    (exportMainDoc objs).nodes.length = (exportMainDoc objs).parents.length ∧
    (exportMainDoc objs).nodes.length = (exportMainDoc objs).meshInstances.length + 1 := by
  refine ⟨?_, ?_, ?_⟩
  · intro i h
    simp only [exportMainDoc, generate_instance_data] at h ⊢
    simp only [List.get_eq_getElem]
    rw [instanceDataAux_node (generate_mesh_list objs) 0 1 i h]
    omega
  · simp [exportMainDoc, generate_node_data, generate_parent_list, node_name_list]
  · simp [exportMainDoc, generate_node_data, generate_instance_data,
      instanceDataAux_length]

/-- Witness for C9 at a one-object hierarchy whose object has no mesh data:
it still occupies instance slot 0 with node id 1. -/
theorem C9_witness :
    ((exportMainDoc [c9Obj]).meshInstances.get ⟨0, by decide⟩).node = 0 + 1 ∧
    (exportMainDoc [c9Obj]).nodes.length = (exportMainDoc [c9Obj]).meshInstances.length + 1 :=
  ⟨(C9_lockstep [c9Obj]).1 0 (by decide), (C9_lockstep [c9Obj]).2.2⟩

/-- C3 counterexample: with the child listed before its parent (the order
children_recursive produces), the emitted parents list is [-1, 2, 0]; entry
1 is neither 0 nor a reference to an earlier-indexed node, refuting the
claim that every non-root parent index points backwards. -/
theorem C3_counterexample :
    (exportMainDoc c3Objs).parents = [-1, 2, 0] ∧
    ¬ (∀ i (h : i < (exportMainDoc c3Objs).parents.length), 0 < i →
         (exportMainDoc c3Objs).parents.get ⟨i, h⟩ = 0 ∨
         (exportMainDoc c3Objs).parents.get ⟨i, h⟩ < (i : Int)) := by
  refine ⟨by decide, fun hall => ?_⟩
  exact absurd (hall 1 (by decide) (by decide)) (by decide)

/-- C3 amended: parents entry 0 is -1, and every later entry is either 0 or
a valid node index (at least 1 and below the node count); the referenced
node may be indexed after the child, because the parent lookup searches the
whole node name list. -/
theorem generate_parent_list_getElem (ml : List SubMesh) (j : Nat)
    (hj : j < (generate_parent_list ml).length) (hjl : j < (instancesOf ml).length) :
    (generate_parent_list ml)[j] =
      match (instancesOf ml)[j].parent with
      | some p => if p ∈ node_name_list ml
          then (((node_name_list ml).indexOf p : Nat) : Int) + 1 else 0
      | none => 0 := by
  simp [generate_parent_list]

/-- C3 amended: parents entry 0 is -1, and every later entry is either 0 or
a valid node index (at least 1 and below the node count); the referenced
node may be indexed after the child, because the parent lookup searches the
whole node name list. -/
theorem C3_parents_amended (objs : List Obj) :
    (exportMainDoc objs).parents.get? 0 = some (-1) ∧
    ∀ i (h : i < (exportMainDoc objs).parents.length), 0 < i →
      (exportMainDoc objs).parents.get ⟨i, h⟩ = 0 ∨
      (1 ≤ (exportMainDoc objs).parents.get ⟨i, h⟩ ∧
       (exportMainDoc objs).parents.get ⟨i, h⟩ < ((exportMainDoc objs).nodes.length : Int)) := by
  constructor
  · rfl
  · intro i h hpos
    obtain ⟨j, rfl⟩ : ∃ j, i = j + 1 := ⟨i - 1, by omega⟩
    simp only [exportMainDoc, List.get_eq_getElem, List.getElem_cons_succ] at h ⊢
    have hj : j < (generate_parent_list (generate_mesh_list objs)).length := by
      simpa using h
    have hjl : j < (instancesOf (generate_mesh_list objs)).length := by
      simpa [generate_parent_list] using hj
    rw [generate_parent_list_getElem (generate_mesh_list objs) j hj hjl]
    have hn : (generate_node_data (generate_mesh_list objs)).length =
        (instancesOf (generate_mesh_list objs)).length := by
      simp [generate_node_data]
    cases hp : ((instancesOf (generate_mesh_list objs))[j]).parent with
    | none => exact Or.inl rfl
    | some p =>
      by_cases hmem : p ∈ node_name_list (generate_mesh_list objs)
      · refine Or.inr ?_
        have hidx : (node_name_list (generate_mesh_list objs)).indexOf p <
            (node_name_list (generate_mesh_list objs)).length :=
          List.indexOf_lt_length.mpr hmem
        have hnames : (node_name_list (generate_mesh_list objs)).length =
            (instancesOf (generate_mesh_list objs)).length := by
          simp [node_name_list, generate_node_data]
        simp only [hmem, if_true, List.length_cons, hn]
        rw [hnames] at hidx
        constructor
        · exact_mod_cast Nat.succ_le_succ (Nat.zero_le _)
        · exact_mod_cast Nat.succ_lt_succ hidx
      · simp [hmem]

/-- Witness for the amended C3 at the concrete two-object hierarchy. -/
theorem C3_witness :
    (exportMainDoc c3Objs).parents.get? 0 = some (-1) ∧
    ((exportMainDoc c3Objs).parents.get ⟨1, by decide⟩ = 0 ∨
     (1 ≤ (exportMainDoc c3Objs).parents.get ⟨1, by decide⟩ ∧
      (exportMainDoc c3Objs).parents.get ⟨1, by decide⟩ <
        ((exportMainDoc c3Objs).nodes.length : Int))) :=
  ⟨(C3_parents_amended c3Objs).1, (C3_parents_amended c3Objs).2 1 (by decide) (by decide)⟩

/-- Helper: triangulated faces have exactly three corners. -/
theorem triangulate_loops_three (bm : BMesh) :
    ∀ f ∈ (triangulateBM bm).faces, f.loops.length = 3 := by
  intro f hf
  simp only [triangulateBM, List.mem_flatMap] at hf
  rcases hf with ⟨g, _, hfg⟩
  rcases hgl : g.loops with _ | ⟨l0, rest⟩
  · simp [triangulateFace, hgl] at hfg
  · simp only [triangulateFace, hgl, List.mem_map] at hfg
    rcases hfg with ⟨p, _, he⟩
    rw [← he]
    rfl

/-- Helper: every triangulated face keeps the material index of a source
face. -/
theorem triangulate_materialIndex (bm : BMesh) :
    ∀ f ∈ (triangulateBM bm).faces, ∃ g ∈ bm.faces, f.materialIndex = g.materialIndex := by
  intro f hf
  simp only [triangulateBM, List.mem_flatMap] at hf
  rcases hf with ⟨g, hg, hfg⟩
  refine ⟨g, hg, ?_⟩
  rcases hgl : g.loops with _ | ⟨l0, rest⟩
  · simp [triangulateFace, hgl] at hfg
  · simp only [triangulateFace, hgl, List.mem_map] at hfg
    rcases hfg with ⟨p, _, he⟩
    rw [← he]

/-- Helper: triangulation preserves well-formedness of vertex references. -/
theorem triangulate_wf (bm : BMesh) (h : bm.wf) : (triangulateBM bm).wf := by
  intro f hf l hl
  simp only [triangulateBM, List.mem_flatMap] at hf
  rcases hf with ⟨g, hg, hfg⟩
  show l.vert ∈ bm.verts
  rcases hgl : g.loops with _ | ⟨l0, rest⟩
  · simp [triangulateFace, hgl] at hfg
  · simp only [triangulateFace, hgl, List.mem_map] at hfg
    rcases hfg with ⟨p, hp, he⟩
    rw [← he] at hl
    simp only [List.mem_cons, List.not_mem_nil, or_false] at hl
    have hrest : ∀ x ∈ rest, x ∈ g.loops := by
      intro x hx
      rw [hgl]
      exact List.mem_cons_of_mem _ hx
    rcases hl with rfl | rfl | rfl
    · exact h g hg _ (by rw [hgl]; exact List.mem_cons_self _ _)
    · exact h g hg _ (hrest _ (List.of_mem_zip hp).1)
    · exact h g hg _ (hrest _ ((List.tail_sublist rest).subset (List.of_mem_zip hp).2))

/-- Helper: a material bucket that keeps at least one face also keeps at
least one vertex after pruning. -/
theorem pruned_verts_nonempty_of_faces (old : BMesh) (k : Nat)
    (hwf : old.wf) (hnl : ∀ f ∈ old.faces, f.loops ≠ [])
    (hne : old.faces.filter (fun f => f.materialIndex == k) ≠ []) :
    (pruneIsolatedVerts (keepMaterialFaces old k)).verts ≠ [] := by
  rcases List.exists_mem_of_ne_nil _ hne with ⟨f, hf⟩
  have hfo : f ∈ old.faces := (List.mem_filter.mp hf).1
  rcases List.exists_mem_of_ne_nil _ (hnl f hfo) with ⟨l, hl⟩
  have hv : l.vert ∈ old.verts := hwf f hfo l hl
  apply List.ne_nil_of_mem (a := l.vert)
  simp only [pruneIsolatedVerts, keepMaterialFaces, List.mem_filter]
  refine ⟨hv, ?_⟩
  rw [List.any_eq_true]
  refine ⟨f, hf, ?_⟩
  rw [vertInFace, List.any_eq_true]
  exact ⟨l, hl, by simp⟩

/-- Helper: length of a filtered cons. -/
theorem length_filter_cons {α : Type} (p : α → Bool) (a : α) (l : List α) :
    ((a :: l).filter p).length = (if p a then 1 else 0) + (l.filter p).length := by
  rw [List.filter_cons]
  split
  · simp [Nat.add_comm]
  · simp

/-- Helper: the indicator of a value below n sums to one over range n. -/
theorem sum_indicator_range (m n : Nat) (h : m < n) :
    ((List.range n).map (fun j => if m = j then 1 else 0)).sum = 1 := by
  induction n with
  | zero => omega
  | succ k ih =>
    rw [List.range_succ, List.map_append, List.sum_append]
    rcases Nat.lt_succ_iff_lt_or_eq.mp h with h2 | h2
    · have hne : m ≠ k := Nat.ne_of_lt h2
      simp [ih h2, hne]
    · subst h2
      have hz : ((List.range m).map (fun j => if m = j then 1 else 0)).sum = 0 := by
        apply List.sum_eq_zero
        intro x hx
        rcases List.mem_map.mp hx with ⟨j, hj, hxe⟩
        have hjm : j < m := List.mem_range.mp hj
        have hne : m ≠ j := by omega
        simp [hne] at hxe
        omega
      simp [hz]

/-- Helper: splitting a face list over all material indices below n covers
every face exactly once. -/
theorem filter_partition_length (l : List BMFace) (n : Nat)
    (hr : ∀ f ∈ l, f.materialIndex < n) :
    ((List.range n).map (fun j => (l.filter (fun f => f.materialIndex == j)).length)).sum
      = l.length := by
  induction l with
  | nil => simp
  | cons f t ih =>
    have hstep : ∀ j, ((f :: t).filter (fun g => g.materialIndex == j)).length
        = (if f.materialIndex = j then 1 else 0)
          + (t.filter (fun g => g.materialIndex == j)).length := by
      intro j
      rw [length_filter_cons]
      congr 1
      by_cases hj : f.materialIndex = j <;> simp [hj]
    have h1 : ((List.range n).map
        (fun j => ((f :: t).filter (fun g => g.materialIndex == j)).length)).sum
        = ((List.range n).map (fun j => (if f.materialIndex = j then 1 else 0)
            + (t.filter (fun g => g.materialIndex == j)).length)).sum := by
      congr 1
      apply List.map_congr_left
      intro j _
      exact hstep j
    rw [h1, List.sum_map_add, sum_indicator_range _ _ (hr f (by simp)),
      ih (fun g hg => hr g (by simp [hg]))]
    simp [Nat.add_comm]

/-- Helper: a bucket bmesh keeps exactly the faces matching its material
index. -/
theorem bucket_faces (old : BMesh) (k : Nat) :
    (pruneIsolatedVerts (keepMaterialFaces old k)).faces
      = old.faces.filter (fun f => f.materialIndex == k) := rfl

/-- Helper: the per-bucket triangle counts of separateAux are the filter
counts of the material indices it scans. -/
theorem separateAux_sum (old : BMesh) (meshName : String) (single : Bool) (obj : List Obj)
    (hwf : old.wf) (hnl : ∀ f ∈ old.faces, f.loops ≠ []) :
    ∀ (mats : List Material) (k : Nat),
      ((separateAux old meshName single obj mats k).map (fun s => s.bm.faces.length)).sum
        = ((List.range mats.length).map
            (fun j => (old.faces.filter (fun f => f.materialIndex == k + j)).length)).sum := by
  intro mats
  induction mats with
  | nil => intro k; simp [separateAux]
  | cons mat rest ih =>
    intro k
    have hshift : ((List.range rest.length).map
        (fun j => (old.faces.filter (fun f => f.materialIndex == k + (j + 1))).length)).sum
        = ((List.range rest.length).map
            (fun j => (old.faces.filter (fun f => f.materialIndex == (k + 1) + j)).length)).sum := by
      congr 1
      apply List.map_congr_left
      intro j _
      rw [show k + (j + 1) = (k + 1) + j from by omega]
    have hrhs : ((List.range (mat :: rest).length).map
        (fun j => (old.faces.filter (fun f => f.materialIndex == k + j)).length)).sum
        = (old.faces.filter (fun f => f.materialIndex == k)).length
          + ((List.range rest.length).map
              (fun j => (old.faces.filter (fun f => f.materialIndex == k + (j + 1))).length)).sum := by
      rw [List.length_cons, List.range_succ_eq_map, List.map_cons, List.sum_cons, List.map_map]
      rfl
    rw [hrhs, hshift, ← ih (k + 1)]
    simp only [separateAux, List.map_append, List.sum_append]
    by_cases hemp : (pruneIsolatedVerts (keepMaterialFaces old k)).verts.isEmpty
    · have hfe : old.faces.filter (fun f => f.materialIndex == k) = [] := by
        by_contra hne
        exact pruned_verts_nonempty_of_faces old k hwf hnl hne
          (List.isEmpty_iff.mp hemp)
      rw [if_pos hemp]
      rw [hfe]
      simp
    · rw [if_neg hemp]
      simp only [List.map_cons, List.map_nil, List.sum_cons, List.sum_nil]
      rw [bucket_faces]
      omega

/-- Helper: every face of every sub-mesh produced by separateAux has a
material index at least the starting counter. -/
theorem separateAux_faces_lb (old : BMesh) (meshName : String) (single : Bool) (obj : List Obj) :
    ∀ (mats : List Material) (k : Nat) (s : SubMesh),
      s ∈ separateAux old meshName single obj mats k →
      ∀ f ∈ s.bm.faces, k ≤ f.materialIndex := by
  intro mats
  induction mats with
  | nil => intro k s hs; simp [separateAux] at hs
  | cons mat rest ih =>
    intro k s hs f hf
    simp only [separateAux, List.mem_append] at hs
    rcases hs with hs | hs
    · by_cases hemp : (pruneIsolatedVerts (keepMaterialFaces old k)).verts.isEmpty
      · rw [if_pos hemp] at hs
        simp at hs
      · rw [if_neg hemp] at hs
        simp only [List.mem_cons, List.not_mem_nil, or_false] at hs
        subst hs
        have hmem := hf
        rw [bucket_faces] at hmem
        have := (List.mem_filter.mp hmem).2
        simp only [beq_iff_eq] at this
        omega
    · have := ih (k + 1) s hs f hf
      omega

/-- Helper: sub-meshes produced by separateAux have pairwise disjoint face
sets, since each keeps only the faces of its own material index. -/
theorem separateAux_pairwise (old : BMesh) (meshName : String) (single : Bool) (obj : List Obj) :
    ∀ (mats : List Material) (k : Nat),
      List.Pairwise (fun s t => ∀ f ∈ s.bm.faces, f ∉ t.bm.faces)
        (separateAux old meshName single obj mats k) := by
  intro mats
  induction mats with
  | nil => intro k; simp [separateAux]
  | cons mat rest ih =>
    intro k
    simp only [separateAux]
    rw [List.pairwise_append]
    refine ⟨?_, ih (k + 1), ?_⟩
    · by_cases hemp : (pruneIsolatedVerts (keepMaterialFaces old k)).verts.isEmpty
      · rw [if_pos hemp]; simp
      · rw [if_neg hemp]; simp
    · intro a ha b hb f hfa hfb
      by_cases hemp : (pruneIsolatedVerts (keepMaterialFaces old k)).verts.isEmpty
      · rw [if_pos hemp] at ha
        simp at ha
      · rw [if_neg hemp] at ha
        simp only [List.mem_cons, List.not_mem_nil, or_false] at ha
        subst ha
        have hmem := hfa
        rw [bucket_faces] at hmem
        have hk := (List.mem_filter.mp hmem).2
        simp only [beq_iff_eq] at hk
        have hb2 := separateAux_faces_lb old meshName single obj rest (k + 1) b hb f hfb
        omega

/-- C1: for a raw mesh all of whose faces carry an in-range material index,
the sub-meshes of separate_mesh_by_material partition the triangulated face
set: their triangle counts sum to the total triangulated face count, and no
triangle belongs to two sub-meshes. -/
theorem C1_material_partition (m : Mesh) (obj : List Obj)
    (hwf : m.geom.wf)
    (hrange : ∀ f ∈ m.geom.faces, f.materialIndex < m.materials.length) :
    ((separate_mesh_by_material m obj).map (fun s => s.bm.faces.length)).sum
      = (triangulateBM (from_mesh m)).faces.length ∧
    List.Pairwise (fun s t => ∀ f ∈ s.bm.faces, f ∉ t.bm.faces)
      (separate_mesh_by_material m obj) := by
  by_cases hm : m.materials.isEmpty
  · constructor
    · simp [separate_mesh_by_material, hm]
    · simp [separate_mesh_by_material, hm]
  · have htw : (triangulateBM (from_mesh m)).wf := triangulate_wf _ hwf
    have h3 : ∀ f ∈ (triangulateBM (from_mesh m)).faces, f.loops ≠ [] := by
      intro f hf hnil
      have := triangulate_loops_three _ f hf
      rw [hnil] at this
      simp at this
    have hrange2 : ∀ f ∈ (triangulateBM (from_mesh m)).faces,
        f.materialIndex < m.materials.length := by
      intro f hf
      rcases triangulate_materialIndex _ f hf with ⟨g, hg, he⟩
      rw [he]
      exact hrange g hg
    constructor
    · rw [show separate_mesh_by_material m obj
          = separateAux (triangulateBM (from_mesh m)) m.name
              (m.materials.length == 1) obj m.materials 0 from by
        simp [separate_mesh_by_material, hm]]
      rw [separateAux_sum _ _ _ _ htw h3 m.materials 0]
      rw [show ((List.range m.materials.length).map
          (fun j => ((triangulateBM (from_mesh m)).faces.filter
            (fun f => f.materialIndex == 0 + j)).length))
          = ((List.range m.materials.length).map
          (fun j => ((triangulateBM (from_mesh m)).faces.filter
            (fun f => f.materialIndex == j)).length)) from by
        apply List.map_congr_left
        intro j _
        rw [Nat.zero_add]]
      exact filter_partition_length _ _ hrange2
    · rw [show separate_mesh_by_material m obj
          = separateAux (triangulateBM (from_mesh m)) m.name
              (m.materials.length == 1) obj m.materials 0 from by
        simp [separate_mesh_by_material, hm]]
      exact separateAux_pairwise _ _ _ _ m.materials 0

/-- Witness for C1 at a two-material mesh with one triangle per material. -/
theorem C1_witness :
    (w1Mesh.geom.wf ∧ ∀ f ∈ w1Mesh.geom.faces, f.materialIndex < w1Mesh.materials.length) ∧
    ((separate_mesh_by_material w1Mesh []).map (fun s => s.bm.faces.length)).sum
      = (triangulateBM (from_mesh w1Mesh)).faces.length :=
  ⟨⟨by unfold BMesh.wf; decide, by decide⟩,
   (C1_material_partition w1Mesh [] (by unfold BMesh.wf; decide) (by decide)).1⟩

/-- Helper: the key list after a dict insertion: unchanged for an existing
key, appended for a new one. -/
theorem dictInsert_keys (d : List (String × Material)) (k : String) (v : Material) :
    (dictInsert d k v).map Prod.fst
      = if k ∈ d.map Prod.fst then d.map Prod.fst else d.map Prod.fst ++ [k] := by
  induction d with
  | nil => simp [dictInsert]
  | cons p t ih =>
    obtain ⟨k0, v0⟩ := p
    by_cases hk : k0 = k
    · subst hk
      simp [dictInsert]
    · have hbeq : (k0 == k) = false := by simp [hk]
      simp only [dictInsert, hbeq, Bool.false_eq_true, if_false, List.map_cons]
      rw [ih]
      by_cases hmem : k ∈ t.map Prod.fst
      · simp [hmem]
      · have hne : k ≠ k0 := fun he => hk he.symm
        simp [hmem, hne]

/-- Helper: dict insertion keeps key lists duplicate free. -/
theorem dictInsert_keys_nodup (d : List (String × Material)) (k : String) (v : Material)
    (h : (d.map Prod.fst).Nodup) : ((dictInsert d k v).map Prod.fst).Nodup := by
  rw [dictInsert_keys]
  by_cases hmem : k ∈ d.map Prod.fst
  · simpa [hmem] using h
  · simp [hmem, List.nodup_append, h]

/-- Helper: a member of an inserted dict was present before or is the new
binding. -/
theorem mem_dictInsert (d : List (String × Material)) (k : String) (v : Material) :
    ∀ p ∈ dictInsert d k v, p ∈ d ∨ p = (k, v) := by
  induction d with
  | nil =>
    intro p hp
    simp [dictInsert] at hp
    exact Or.inr hp
  | cons q t ih =>
    intro p hp
    obtain ⟨k0, v0⟩ := q
    by_cases hk : k0 = k
    · subst hk
      simp only [dictInsert, beq_self_eq_true, if_true] at hp
      rcases List.mem_cons.mp hp with hp | hp
      · exact Or.inr hp
      · exact Or.inl (List.mem_cons_of_mem _ hp)
    · have hbeq : (k0 == k) = false := by simp [hk]
      simp only [dictInsert, hbeq, Bool.false_eq_true, if_false] at hp
      rcases List.mem_cons.mp hp with hp | hp
      · exact Or.inl (by simp [hp])
      · rcases ih p hp with h | h
        · exact Or.inl (List.mem_cons_of_mem _ h)
        · exact Or.inr h

/-- Helper: a successful export_mappings loop yields a materials dict whose
keys stay duplicate free and whose every entry either was already present
or is keyed by its own material name with its path emitted in the mapping. -/
theorem export_loop_materials (relpath : String) (lst : List SubMesh) :
    ∀ (prev : Option Nat) (mats : List (String × Material)) (ps : List String)
      (ms : List (String × Material)) (dw : Nat),
      export_mappings_loop relpath lst prev mats = some (ps, ms, dw) →
      ((mats.map Prod.fst).Nodup → (ms.map Prod.fst).Nodup) ∧
      (∀ p ∈ ms, p ∈ mats ∨ (p.2.name = p.1 ∧ (relpath ++ "/" ++ p.1 ++ ".json") ∈ ps)) := by
  induction lst with
  | nil =>
    intro prev mats ps ms dw h
    simp only [export_mappings_loop, Option.some.injEq, Prod.mk.injEq] at h
    obtain ⟨h1, h2, h3⟩ := h
    subst h2
    exact ⟨fun hx => hx, fun p hp => Or.inl hp⟩
  | cons s t ih =>
    intro prev mats ps ms dw h
    simp only [export_mappings_loop] at h
    split at h
    · simp at h
    · split at h
      · split at h
        · -- materials empty: dummy entry
          split at h
          · simp at h
          · rename_i r ps0 ms0 dw0 hrec
            simp only [Option.some.injEq, Prod.mk.injEq] at h
            obtain ⟨hps, hms, hdw⟩ := h
            subst hms
            have hmain := ih _ mats ps0 ms0 dw0 hrec
            refine ⟨hmain.1, fun p hp => ?_⟩
            rcases hmain.2 p hp with hx | hx
            · exact Or.inl hx
            · exact Or.inr ⟨hx.1, by rw [← hps]; exact List.mem_cons_of_mem _ hx.2⟩
        · -- materials present
          split at h
          · simp at h
          · rename_i mid hmid
            split at h
            · simp at h
            · rename_i mat hget
              split at h
              · simp at h
              · rename_i r ps0 ms0 dw0 hrec
                simp only [Option.some.injEq, Prod.mk.injEq] at h
                obtain ⟨hps, hms, hdw⟩ := h
                subst hms
                have hmain := ih _ (dictInsert mats mat.name mat) ps0 ms0 dw0 hrec
                constructor
                · intro hnd
                  exact hmain.1 (dictInsert_keys_nodup mats mat.name mat hnd)
                · intro p hp
                  rcases hmain.2 p hp with hx | hx
                  · rcases mem_dictInsert mats mat.name mat p hx with hy | hy
                    · exact Or.inl hy
                    · refine Or.inr ⟨by rw [hy], ?_⟩
                      rw [← hps, hy]
                      exact List.mem_cons_self _ _
                  · exact Or.inr ⟨hx.1, by rw [← hps]; exact List.mem_cons_of_mem _ hx.2⟩
      · -- no mesh data: dummy entry
        split at h
        · simp at h
        · rename_i r ps0 ms0 dw0 hrec
          simp only [Option.some.injEq, Prod.mk.injEq] at h
          obtain ⟨hps, hms, hdw⟩ := h
          subst hms
          have hmain := ih _ mats ps0 ms0 dw0 hrec
          refine ⟨hmain.1, fun p hp => ?_⟩
          rcases hmain.2 p hp with hx | hx
          · exact Or.inl hx
          · exact Or.inr ⟨hx.1, by rw [← hps]; exact List.mem_cons_of_mem _ hx.2⟩

/-- C5 counterexample: material MatB belongs to the mesh, but no surviving
mesh-part uses it, and the export run writes only MatA.json; MatB gets no
file, refuting the at-least-one-file part of the claim. -/
theorem C5_counterexample :
    writtenMaterialFiles "mats" [c5Obj] = some ["MatA.json"] ∧
    c5MatB ∈ c5Mesh.materials ∧
    "MatB.json" ∉ ["MatA.json"] :=
  ⟨by decide, by decide, by decide⟩

/-- Helper: a successful export_mappings loop only grows the key set of the
materials dict, and whenever a processed sub-mesh takes the materials
branch (first instance with mesh data whose material list is nonempty, a
first face, and an in-range slot lookup), the name of the looked-up
material ends up among the dict keys of the final result. -/
theorem export_loop_written (relpath : String) (lst : List SubMesh) :
    ∀ (prev : Option Nat) (mats : List (String × Material)) (ps : List String)
      (ms : List (String × Material)) (dw : Nat),
      export_mappings_loop relpath lst prev mats = some (ps, ms, dw) →
      (∀ k, k ∈ mats.map Prod.fst → k ∈ ms.map Prod.fst) ∧
      (∀ s ∈ lst, ∀ o d f mat,
        s.instances.head? = some o → o.data = some d → d.materials.isEmpty = false →
        s.bm.faces.head? = some f → d.materials.get? f.materialIndex = some mat →
        mat.name ∈ ms.map Prod.fst) := by
  induction lst with
  | nil =>
    intro prev mats ps ms dw h
    simp only [export_mappings_loop, Option.some.injEq, Prod.mk.injEq] at h
    obtain ⟨h1, h2, h3⟩ := h
    subst h2
    exact ⟨fun k hk => hk, fun s hs => absurd hs (List.not_mem_nil s)⟩
  | cons s t ih =>
    intro prev mats ps ms dw h
    cases hinst : s.instances with
    | nil =>
      simp only [export_mappings_loop, hinst] at h
      exact Option.noConfusion h
    | cons o rest =>
      cases hdd : o.data with
      | none =>
        simp only [export_mappings_loop, hinst, hdd] at h
        cases hrec : export_mappings_loop relpath t (firstFaceMatId s prev) mats with
        | none => rw [hrec] at h; simp at h
        | some r =>
          obtain ⟨ps0, ms0, dw0⟩ := r
          rw [hrec] at h
          simp only [Option.some.injEq, Prod.mk.injEq] at h
          obtain ⟨hps, hms, hdw⟩ := h
          subst hms
          have hmain := ih (firstFaceMatId s prev) mats ps0 ms0 dw0 hrec
          refine ⟨hmain.1, ?_⟩
          intro s2 hs2 o2 d2 f2 mat2 hh1 hh2 hh3 hh4 hh5
          rcases List.mem_cons.mp hs2 with heq | hs2
          · subst heq
            rw [hinst] at hh1
            simp only [List.head?_cons, Option.some.injEq] at hh1
            subst hh1
            rw [hdd] at hh2
            exact absurd hh2 (by simp)
          · exact hmain.2 s2 hs2 o2 d2 f2 mat2 hh1 hh2 hh3 hh4 hh5
      | some d =>
        cases hde : d.materials.isEmpty with
        | true =>
          simp only [export_mappings_loop, hinst, hdd, hde, if_true] at h
          cases hrec : export_mappings_loop relpath t (firstFaceMatId s prev) mats with
          | none => rw [hrec] at h; simp at h
          | some r =>
            obtain ⟨ps0, ms0, dw0⟩ := r
            rw [hrec] at h
            simp only [Option.some.injEq, Prod.mk.injEq] at h
            obtain ⟨hps, hms, hdw⟩ := h
            subst hms
            have hmain := ih (firstFaceMatId s prev) mats ps0 ms0 dw0 hrec
            refine ⟨hmain.1, ?_⟩
            intro s2 hs2 o2 d2 f2 mat2 hh1 hh2 hh3 hh4 hh5
            rcases List.mem_cons.mp hs2 with heq | hs2
            · subst heq
              rw [hinst] at hh1
              simp only [List.head?_cons, Option.some.injEq] at hh1
              subst hh1
              rw [hdd] at hh2
              simp only [Option.some.injEq] at hh2
              subst hh2
              rw [hde] at hh3
              exact absurd hh3 (by simp)
            · exact hmain.2 s2 hs2 o2 d2 f2 mat2 hh1 hh2 hh3 hh4 hh5
        | false =>
          simp only [export_mappings_loop, hinst, hdd, hde, Bool.false_eq_true, if_false] at h
          cases hfaces : s.bm.faces with
          | nil =>
            have hmidp : firstFaceMatId s prev = prev := by simp [firstFaceMatId, hfaces]
            simp only [hmidp] at h
            cases prev with
            | none => simp at h
            | some mid =>
              cases hget : d.materials.get? mid with
              | none => simp only [hget] at h; exact Option.noConfusion h
              | some mat =>
                simp only [hget] at h
                cases hrec : export_mappings_loop relpath t (some mid)
                    (dictInsert mats mat.name mat) with
                | none => rw [hrec] at h; simp at h
                | some r =>
                  obtain ⟨ps0, ms0, dw0⟩ := r
                  rw [hrec] at h
                  simp only [Option.some.injEq, Prod.mk.injEq] at h
                  obtain ⟨hps, hms, hdw⟩ := h
                  subst hms
                  have hmain := ih (some mid) (dictInsert mats mat.name mat) ps0 ms0 dw0 hrec
                  have hmono : ∀ k, k ∈ mats.map Prod.fst → k ∈ ms0.map Prod.fst := by
                    intro k hk
                    apply hmain.1
                    rw [dictInsert_keys]
                    by_cases hmem : mat.name ∈ mats.map Prod.fst
                    · simpa [hmem] using hk
                    · simp only [hmem, if_false]
                      exact List.mem_append.mpr (Or.inl hk)
                  refine ⟨hmono, ?_⟩
                  intro s2 hs2 o2 d2 f2 mat2 hh1 hh2 hh3 hh4 hh5
                  rcases List.mem_cons.mp hs2 with heq | hs2
                  · subst heq
                    rw [hfaces] at hh4
                    exact absurd hh4 (by simp)
                  · exact hmain.2 s2 hs2 o2 d2 f2 mat2 hh1 hh2 hh3 hh4 hh5
          | cons f fs =>
            have hmid : firstFaceMatId s prev = some f.materialIndex := by
              simp [firstFaceMatId, hfaces]
            simp only [hmid] at h
            cases hget : d.materials.get? f.materialIndex with
            | none => simp only [hget] at h; exact Option.noConfusion h
            | some mat =>
              simp only [hget] at h
              cases hrec : export_mappings_loop relpath t (some f.materialIndex)
                  (dictInsert mats mat.name mat) with
              | none => rw [hrec] at h; simp at h
              | some r =>
                obtain ⟨ps0, ms0, dw0⟩ := r
                rw [hrec] at h
                simp only [Option.some.injEq, Prod.mk.injEq] at h
                obtain ⟨hps, hms, hdw⟩ := h
                subst hms
                have hmain := ih (some f.materialIndex) (dictInsert mats mat.name mat)
                  ps0 ms0 dw0 hrec
                have hkey : mat.name ∈ (dictInsert mats mat.name mat).map Prod.fst := by
                  rw [dictInsert_keys]
                  by_cases hmem : mat.name ∈ mats.map Prod.fst
                  · simp [hmem]
                  · simp [hmem]
                have hmono : ∀ k, k ∈ mats.map Prod.fst → k ∈ ms0.map Prod.fst := by
                  intro k hk
                  apply hmain.1
                  rw [dictInsert_keys]
                  by_cases hmem : mat.name ∈ mats.map Prod.fst
                  · simpa [hmem] using hk
                  · simp only [hmem, if_false]
                    exact List.mem_append.mpr (Or.inl hk)
                refine ⟨hmono, ?_⟩
                intro s2 hs2 o2 d2 f2 mat2 hh1 hh2 hh3 hh4 hh5
                rcases List.mem_cons.mp hs2 with heq | hs2
                · subst heq
                  rw [hinst] at hh1
                  simp only [List.head?_cons, Option.some.injEq] at hh1
                  subst hh1
                  rw [hdd] at hh2
                  simp only [Option.some.injEq] at hh2
                  subst hh2
                  rw [hfaces] at hh4
                  simp only [List.head?_cons, Option.some.injEq] at hh4
                  subst hh4
                  rw [hget] at hh5
                  simp only [Option.some.injEq] at hh5
                  subst hh5
                  exact hmain.1 _ hkey
                · exact hmain.2 s2 hs2 o2 d2 f2 mat2 hh1 hh2 hh3 hh4 hh5

/-- C5 amended: in a successful export run each written material file comes
from a distinct dict key, so each material name is written at most once;
every written material is one referenced by some mapping entry (its path
appears in the mapping list); and conversely every material name referenced
by the first face of a surviving mesh-part instance is written: it appears
among the written material names.  Materials referenced by no surviving
mesh-part are not written. -/
theorem C5_materials_amended (relpath : String) (ml : List SubMesh)
    (ps : List String) (ms : List Material) (dw : Nat)
    (h : export_mappings relpath ml = some (ps, ms, dw)) :
    (ms.map (fun m => m.name)).Nodup ∧
    (∀ mat ∈ ms, (relpath ++ "/" ++ mat.name ++ ".json") ∈ ps) ∧
    (∀ s ∈ mappingListOf ml, ∀ o d f mat,
      s.instances.head? = some o → o.data = some d → d.materials.isEmpty = false →
      s.bm.faces.head? = some f → d.materials.get? f.materialIndex = some mat →
      mat.name ∈ ms.map (fun m => m.name)) := by
  unfold export_mappings at h
  cases hloop : export_mappings_loop relpath (mappingListOf ml) none [] with
  | none => rw [hloop] at h; simp at h
  | some r =>
    obtain ⟨ps0, ms0, dw0⟩ := r
    rw [hloop] at h
    simp only [Option.map_some', Option.some.injEq, Prod.mk.injEq] at h
    obtain ⟨hps, hms, hdw⟩ := h
    have hmain := export_loop_materials relpath (mappingListOf ml) none [] ps0 ms0 dw0 hloop
    have hwritten := export_loop_written relpath (mappingListOf ml) none [] ps0 ms0 dw0 hloop
    have hnames : ms0.map (fun p => p.2.name) = ms0.map Prod.fst := by
      apply List.map_congr_left
      intro p hp
      rcases hmain.2 p hp with hx | hx
      · simp at hx
      · exact hx.1
    have hmsnames : ms.map (fun m => m.name) = ms0.map Prod.fst := by
      rw [← hms, List.map_map]
      have hshow : ((fun m => m.name) ∘ fun p : String × Material => p.2)
          = fun p : String × Material => p.2.name := rfl
      rw [hshow, hnames]
    refine ⟨?_, ?_, ?_⟩
    · rw [hmsnames]
      exact hmain.1 (by simp)
    · intro mat hmat
      rw [← hms] at hmat
      rcases List.mem_map.mp hmat with ⟨p, hp, hpe⟩
      rcases hmain.2 p hp with hx | hx
      · simp at hx
      · rw [← hpe, ← hps]
        rw [← hx.1] at hx
        exact hx.2
    · intro s hs o d f mat hh1 hh2 hh3 hh4 hh5
      rw [hmsnames]
      exact hwritten.2 s hs o d f mat hh1 hh2 hh3 hh4 hh5

/-- Witness for the amended C5 at the concrete run that writes MatA.json. -/
theorem C5_witness :
    (([c5MatA] : List Material).map (fun m => m.name)).Nodup ∧
    (∀ mat ∈ ([c5MatA] : List Material),
      ("mats" ++ "/" ++ mat.name ++ ".json") ∈ ["mats/MatA.json"]) ∧
    (∀ s ∈ mappingListOf (generate_mesh_list [c5Obj]), ∀ o d f mat,
      s.instances.head? = some o → o.data = some d → d.materials.isEmpty = false →
      s.bm.faces.head? = some f → d.materials.get? f.materialIndex = some mat →
      mat.name ∈ ([c5MatA] : List Material).map (fun m => m.name)) :=
  C5_materials_amended "mats" (generate_mesh_list [c5Obj]) ["mats/MatA.json"] [c5MatA] 0 (by decide)

/-- Helper: every element of the mapping list is one of the sub-meshes. -/
theorem mem_mappingListOf (t : List SubMesh) (s : SubMesh) (h : s ∈ mappingListOf t) :
    s ∈ t := by
  rcases List.mem_flatMap.mp h with ⟨m, hm, hsm⟩
  rcases List.mem_map.mp hsm with ⟨_, _, he⟩
  rw [← he]
  exact hm

/-- Helper: the mapping list has one entry per instance. -/
theorem mappingListOf_length (t : List SubMesh) :
    (mappingListOf t).length = (instancesOf t).length := by
  induction t with
  | nil => rfl
  | cons m t2 ih =>
    simp only [mappingListOf, instancesOf, List.flatMap_cons, List.length_append,
      List.length_map] at ih ⊢
    rw [ih]

/-- Helper: entry i of the instance data names a mesh id in the scanned
range, and the mapping list entry at the same position is exactly the
sub-mesh with that mesh id. -/
theorem instanceData_mappingList_align (t : List SubMesh) :
    ∀ (mid nid i : Nat) (hi : i < (instanceDataAux t mid nid).length),
      i < (mappingListOf t).length ∧
      mid ≤ ((instanceDataAux t mid nid).get ⟨i, hi⟩).mesh ∧
      ((instanceDataAux t mid nid).get ⟨i, hi⟩).mesh - mid < t.length ∧
      ∀ (h1 : i < (mappingListOf t).length)
        (h2 : ((instanceDataAux t mid nid).get ⟨i, hi⟩).mesh - mid < t.length),
        (mappingListOf t).get ⟨i, h1⟩
          = t.get ⟨((instanceDataAux t mid nid).get ⟨i, hi⟩).mesh - mid, h2⟩ := by
  induction t with
  | nil => intro mid nid i hi; simp [instanceDataAux] at hi
  | cons m t2 ih =>
    intro mid nid i hi
    have hblock : ((List.range m.instances.length).map
        (fun k => ({ node := nid + k, mesh := mid } : InstanceRec))).length
        = m.instances.length := by simp
    have hmapblock : (m.instances.map (fun _ => m)).length = m.instances.length := by simp
    by_cases hb : i < m.instances.length
    · have hget : (instanceDataAux (m :: t2) mid nid).get ⟨i, hi⟩
          = { node := nid + i, mesh := mid } := by
        simp only [instanceDataAux, List.get_eq_getElem]
        rw [List.getElem_append_left (by simpa [hblock] using hb)]
        simp
      rw [hget]
      have hmlen : i < (mappingListOf (m :: t2)).length := by
        simp only [mappingListOf, List.flatMap_cons, List.length_append, List.length_map]
        omega
      refine ⟨hmlen, Nat.le_refl mid, by simp [Nat.sub_self], ?_⟩
      intro h1 h2
      simp only [List.get_eq_getElem]
      have hsub : mid - mid = 0 := Nat.sub_self mid
      simp only [mappingListOf, List.flatMap_cons]
      rw [List.getElem_append_left (by simpa [hmapblock] using hb)]
      simp [hsub]
    · have hrest : i - m.instances.length < (instanceDataAux t2 (mid + 1)
          (nid + m.instances.length)).length := by
        simp only [instanceDataAux, List.length_append, hblock] at hi
        omega
      have hget : (instanceDataAux (m :: t2) mid nid).get ⟨i, hi⟩
          = (instanceDataAux t2 (mid + 1) (nid + m.instances.length)).get
              ⟨i - m.instances.length, hrest⟩ := by
        simp only [instanceDataAux, List.get_eq_getElem]
        rw [List.getElem_append_right (by simpa [hblock] using Nat.not_lt.mp hb)]
        simp [hblock]
      rcases ih (mid + 1) (nid + m.instances.length) (i - m.instances.length) hrest
        with ⟨hm1, hm2, hm3, hm4⟩
      rw [hget]
      have hmesh := hm2
      have hmlen : i < (mappingListOf (m :: t2)).length := by
        simp only [mappingListOf, List.flatMap_cons, List.length_append, List.length_map]
        have := hm1
        simp only [mappingListOf] at this
        omega
      refine ⟨hmlen, by omega, ?_, ?_⟩
      · simp only [List.length_cons]
        omega
      · intro h1 h2
        have hmain := hm4 hm1 hm3
        have e1 : (mappingListOf (m :: t2)).get ⟨i, h1⟩
            = (mappingListOf t2).get ⟨i - m.instances.length, hm1⟩ := by
          simp only [mappingListOf, List.flatMap_cons, List.get_eq_getElem]
          rw [List.getElem_append_right (by simpa [hmapblock] using Nat.not_lt.mp hb)]
          simp [mappingListOf]
        have e2 : (m :: t2).get ⟨((instanceDataAux t2 (mid + 1) (nid + m.instances.length)).get
              ⟨i - m.instances.length, hrest⟩).mesh - mid, h2⟩
            = t2.get ⟨((instanceDataAux t2 (mid + 1) (nid + m.instances.length)).get
              ⟨i - m.instances.length, hrest⟩).mesh - (mid + 1), hm3⟩ := by
          have hfe : (⟨((instanceDataAux t2 (mid + 1) (nid + m.instances.length)).get
                ⟨i - m.instances.length, hrest⟩).mesh - mid, h2⟩ : Fin (m :: t2).length)
              = ⟨(((instanceDataAux t2 (mid + 1) (nid + m.instances.length)).get
                ⟨i - m.instances.length, hrest⟩).mesh - (mid + 1)) + 1, by
                  simp only [List.length_cons]
                  omega⟩ := by
            apply Fin.ext
            simp only []
            omega
          rw [hfe]
          simp [List.get_eq_getElem]
        rw [e1, hmain, e2]

/-- Helper: an element of the head option is a member of the list. -/
theorem mem_of_head_some {α : Type} (l : List α) (a : α) (h : l.head? = some a) : a ∈ l := by
  cases l with
  | nil => simp at h
  | cons b t =>
    simp only [List.head?_cons, Option.some.injEq] at h
    rw [← h]
    exact List.mem_cons_self _ _

/-- Helper: adding an object to the groups preserves the group invariant
(groups are nonempty, their mesh is the data of some hierarchy object, and
every member is a hierarchy object whose data name matches the group). -/
theorem addToGroups_inv (objs : List Obj) (o : Obj) (ho : o ∈ objs) :
    ∀ (gs : List (Mesh × List Obj)),
      (∀ g ∈ gs, g.2 ≠ [] ∧ (∃ o2 ∈ objs, dataOf o2 = g.1) ∧
        ∀ o2 ∈ g.2, o2 ∈ objs ∧ (dataOf o2).name = g.1.name) →
      ∀ g ∈ addToGroups gs (dataOf o) o,
        g.2 ≠ [] ∧ (∃ o2 ∈ objs, dataOf o2 = g.1) ∧
        ∀ o2 ∈ g.2, o2 ∈ objs ∧ (dataOf o2).name = g.1.name := by
  intro gs
  induction gs with
  | nil =>
    intro _ g hg
    simp only [addToGroups, List.mem_cons, List.not_mem_nil, or_false] at hg
    subst hg
    refine ⟨by simp, ⟨o, ho, rfl⟩, ?_⟩
    intro o2 ho2
    simp only [List.mem_cons, List.not_mem_nil, or_false] at ho2
    subst ho2
    exact ⟨ho, rfl⟩
  | cons q t iht =>
    intro hgs g hg
    obtain ⟨m, os⟩ := q
    by_cases hname : m.name = (dataOf o).name
    · have hbeq : (m.name == (dataOf o).name) = true := by simp [hname]
      simp only [addToGroups, hbeq, if_true] at hg
      rcases List.mem_cons.mp hg with hg | hg
      · subst hg
        have hq := hgs (m, os) (List.mem_cons_self _ _)
        refine ⟨by simp, hq.2.1, ?_⟩
        intro o2 ho2
        rcases List.mem_append.mp ho2 with h2 | h2
        · exact hq.2.2 o2 h2
        · simp only [List.mem_cons, List.not_mem_nil, or_false] at h2
          subst h2
          exact ⟨ho, hname.symm⟩
      · exact hgs g (List.mem_cons_of_mem _ hg)
    · have hbeq : (m.name == (dataOf o).name) = false := by simp [hname]
      simp only [addToGroups, hbeq, Bool.false_eq_true, if_false] at hg
      rcases List.mem_cons.mp hg with hg | hg
      · subst hg
        exact hgs (m, os) (List.mem_cons_self _ _)
      · exact iht (fun g2 hg2 => hgs g2 (List.mem_cons_of_mem _ hg2)) g hg

/-- Helper: every group of the raw_meshes dict is nonempty, carries the
mesh datablock of one of the hierarchy objects, and all its members are
hierarchy objects whose data name matches the group mesh. -/
theorem groupByData_inv (objs : List Obj) :
    ∀ g ∈ groupByData objs,
      g.2 ≠ [] ∧ (∃ o2 ∈ objs, dataOf o2 = g.1) ∧
      ∀ o2 ∈ g.2, o2 ∈ objs ∧ (dataOf o2).name = g.1.name := by
  have main : ∀ (l : List Obj) (gs : List (Mesh × List Obj)),
      (∀ o ∈ l, o ∈ objs) →
      (∀ g ∈ gs, g.2 ≠ [] ∧ (∃ o2 ∈ objs, dataOf o2 = g.1) ∧
        ∀ o2 ∈ g.2, o2 ∈ objs ∧ (dataOf o2).name = g.1.name) →
      ∀ g ∈ l.foldl (fun gs2 o => addToGroups gs2 (dataOf o) o) gs,
        g.2 ≠ [] ∧ (∃ o2 ∈ objs, dataOf o2 = g.1) ∧
        ∀ o2 ∈ g.2, o2 ∈ objs ∧ (dataOf o2).name = g.1.name := by
    intro l
    induction l with
    | nil => intro gs _ hgs g hg; exact hgs g hg
    | cons a l2 ihl =>
      intro gs hl hgs g hg
      simp only [List.foldl_cons] at hg
      exact ihl _ (fun o2 ho2 => hl o2 (List.mem_cons_of_mem _ ho2))
        (addToGroups_inv objs a (hl a (List.mem_cons_self _ _)) gs hgs) g hg
  exact main objs [] (fun o ho => ho) (by simp)

/-- Helper: a bucket whose pruned vertex list is nonempty has at least one
face. -/
theorem bucket_faces_nonempty (old : BMesh) (k : Nat)
    (h : (pruneIsolatedVerts (keepMaterialFaces old k)).verts ≠ []) :
    (pruneIsolatedVerts (keepMaterialFaces old k)).faces ≠ [] := by
  rcases List.exists_mem_of_ne_nil _ h with ⟨v, hv⟩
  simp only [pruneIsolatedVerts, List.mem_filter] at hv
  rcases List.any_eq_true.mp hv.2 with ⟨f, hf, _⟩
  exact List.ne_nil_of_mem hf

/-- Helper: every sub-mesh of separateAux keeps the instance list and is the
pruned bucket of one in-range material index. -/
theorem separateAux_mem (old : BMesh) (meshName : String) (single : Bool) (obj : List Obj) :
    ∀ (mats : List Material) (k : Nat) (s : SubMesh),
      s ∈ separateAux old meshName single obj mats k →
      s.instances = obj ∧
      ∃ j, j < mats.length ∧ s.bm = pruneIsolatedVerts (keepMaterialFaces old (k + j)) ∧
        s.bm.verts ≠ [] := by
  intro mats
  induction mats with
  | nil => intro k s hs; simp [separateAux] at hs
  | cons mat rest ih =>
    intro k s hs
    simp only [separateAux, List.mem_append] at hs
    rcases hs with hs | hs
    · by_cases hemp : (pruneIsolatedVerts (keepMaterialFaces old k)).verts.isEmpty
      · rw [if_pos hemp] at hs
        simp at hs
      · rw [if_neg hemp] at hs
        simp only [List.mem_cons, List.not_mem_nil, or_false] at hs
        subst hs
        refine ⟨rfl, 0, by simp, by simp, ?_⟩
        simpa using fun hcon => hemp (by simp [hcon])
    · rcases ih (k + 1) s hs with ⟨hi, j, hj, hbm, hv⟩
      refine ⟨hi, j + 1, by simp only [List.length_cons]; omega, ?_, hv⟩
      rw [hbm, show (k + 1) + j = k + (j + 1) from by omega]

/-- Helper: under unique datablock names, every sub-mesh of the generated
mesh list has a nonempty instance list, and whenever its first instance
carries mesh data with materials, the sub-mesh has a first face whose
material index is in range for that data. -/
theorem generate_mesh_list_inv (objs : List Obj)
    (hdata : ∀ o1 ∈ objs, ∀ o2 ∈ objs,
      (dataOf o1).name = (dataOf o2).name → dataOf o1 = dataOf o2) :
    ∀ s ∈ generate_mesh_list objs,
      s.instances ≠ [] ∧
      ∀ o d, s.instances.head? = some o → o.data = some d → d.materials.isEmpty = false →
        s.bm.faces ≠ [] ∧
        ∀ f, s.bm.faces.head? = some f → f.materialIndex < d.materials.length := by
  intro s hs
  obtain ⟨gm, go, hgmem, hsep⟩ :
      ∃ a b, (a, b) ∈ groupByData objs ∧ s ∈ separate_mesh_by_material a b := by
    simpa [generate_mesh_list] using hs
  rcases groupByData_inv objs (gm, go) hgmem with ⟨hne, ⟨o0, ho0, ho0e⟩, hall⟩
  by_cases hm : gm.materials.isEmpty
  · have hseq : s = ⟨gm.name, triangulateBM (from_mesh gm), go⟩ := by
      simp only [separate_mesh_by_material, if_pos hm] at hsep
      simpa using hsep
    subst hseq
    refine ⟨hne, ?_⟩
    intro o d hhead hd hdm
    exfalso
    have ho2 : o ∈ go := mem_of_head_some _ _ hhead
    have hoo := hall o ho2
    have he1 : dataOf o = dataOf o0 := hdata o hoo.1 o0 ho0 (by rw [hoo.2, ho0e])
    have he2 : dataOf o = gm := by rw [he1, ho0e]
    have hd2 : d = gm := by rw [← he2]; simp [dataOf, hd]
    rw [hd2, hm] at hdm
    simp at hdm
  · have hsep2 : s ∈ separateAux (triangulateBM (from_mesh gm)) gm.name
        (gm.materials.length == 1) go gm.materials 0 := by
      simp only [separate_mesh_by_material, if_neg hm] at hsep
      exact hsep
    rcases separateAux_mem _ _ _ _ gm.materials 0 s hsep2 with ⟨hinst, j, hj, hbm, hv⟩
    constructor
    · rw [hinst]; exact hne
    · intro o d hhead hd _
      have ho2 : o ∈ go := by rw [← hinst]; exact mem_of_head_some _ _ hhead
      have hoo := hall o ho2
      have he1 : dataOf o = dataOf o0 := hdata o hoo.1 o0 ho0 (by rw [hoo.2, ho0e])
      have he2 : dataOf o = gm := by rw [he1, ho0e]
      have hd2 : d = gm := by rw [← he2]; simp [dataOf, hd]
      have hfne : s.bm.faces ≠ [] := by
        rw [hbm]
        exact bucket_faces_nonempty _ _ (by rw [← hbm]; exact hv)
      refine ⟨hfne, ?_⟩
      intro f hf
      have hfm : f ∈ s.bm.faces := mem_of_head_some _ _ hf
      rw [hbm, show (pruneIsolatedVerts (keepMaterialFaces (triangulateBM (from_mesh gm))
        (0 + j))).faces = (triangulateBM (from_mesh gm)).faces.filter
          (fun f2 => f2.materialIndex == 0 + j) from rfl] at hfm
      have hmi := (List.mem_filter.mp hfm).2
      simp only [beq_iff_eq] at hmi
      rw [hd2]
      omega

/-- Helper: on a list of sub-meshes satisfying the pipeline invariant the
export_mappings loop succeeds and emits, position by position, exactly the
expected mapping path of the sub-mesh at that position. -/
theorem export_loop_paths (relpath : String) (lst : List SubMesh) :
    ∀ (prev : Option Nat) (mats : List (String × Material)),
      (∀ s ∈ lst, s.instances ≠ [] ∧
        ∀ o d, s.instances.head? = some o → o.data = some d → d.materials.isEmpty = false →
          s.bm.faces ≠ [] ∧
          ∀ f, s.bm.faces.head? = some f → f.materialIndex < d.materials.length) →
      ∃ ps ms dw, export_mappings_loop relpath lst prev mats = some (ps, ms, dw) ∧
        ps.length = lst.length ∧
        ∀ i (h1 : i < ps.length) (h2 : i < lst.length),
          ps.get ⟨i, h1⟩ = pathFor relpath (lst.get ⟨i, h2⟩) := by
  induction lst with
  | nil =>
    intro prev mats _
    exact ⟨[], mats, 0, rfl, rfl, fun i h1 => by simp at h1⟩
  | cons s t ih =>
    intro prev mats hinv
    have hs := hinv s (List.mem_cons_self _ _)
    have hinvt : ∀ s2 ∈ t, s2.instances ≠ [] ∧
        ∀ o d, s2.instances.head? = some o → o.data = some d → d.materials.isEmpty = false →
          s2.bm.faces ≠ [] ∧
          ∀ f, s2.bm.faces.head? = some f → f.materialIndex < d.materials.length :=
      fun s2 hs2 => hinv s2 (List.mem_cons_of_mem _ hs2)
    obtain ⟨o, rest, hinst⟩ : ∃ o rest, s.instances = o :: rest := by
      cases hi2 : s.instances with
      | nil => exact absurd hi2 hs.1
      | cons a b => exact ⟨a, b, rfl⟩
    cases hdd : o.data with
    | none =>
      obtain ⟨ps0, ms0, dw0, hrec, hlen0, hp0⟩ := ih (firstFaceMatId s prev) mats hinvt
      refine ⟨(relpath ++ "/None.json") :: ps0, ms0, dw0 + 1, ?_, by simp [hlen0], ?_⟩
      · simp only [export_mappings_loop, hinst, hdd, hrec]
      · intro i h1 h2
        cases i with
        | zero => simp [pathFor, hinst, hdd]
        | succ n =>
          simp only [List.get_eq_getElem, List.getElem_cons_succ]
          have hn1 : n < ps0.length := by simpa using h1
          have hn2 : n < t.length := by simpa using h2
          simpa [List.get_eq_getElem] using hp0 n hn1 hn2
    | some d =>
      cases hde : d.materials.isEmpty with
      | true =>
        obtain ⟨ps0, ms0, dw0, hrec, hlen0, hp0⟩ := ih (firstFaceMatId s prev) mats hinvt
        refine ⟨(relpath ++ "/None.json") :: ps0, ms0, dw0 + 1, ?_, by simp [hlen0], ?_⟩
        · simp only [export_mappings_loop, hinst, hdd, hde, if_true, hrec]
        · intro i h1 h2
          cases i with
          | zero => simp [pathFor, hinst, hdd, hde]
          | succ n =>
            simp only [List.get_eq_getElem, List.getElem_cons_succ]
            have hn1 : n < ps0.length := by simpa using h1
            have hn2 : n < t.length := by simpa using h2
            simpa [List.get_eq_getElem] using hp0 n hn1 hn2
      | false =>
        have hfacts := hs.2 o d (by rw [hinst]; rfl) hdd hde
        obtain ⟨f, fs, hface⟩ : ∃ f fs, s.bm.faces = f :: fs := by
          cases hf2 : s.bm.faces with
          | nil => exact absurd hf2 hfacts.1
          | cons a b => exact ⟨a, b, rfl⟩
        have hmi : f.materialIndex < d.materials.length :=
          hfacts.2 f (by rw [hface]; rfl)
        have hmid : firstFaceMatId s prev = some f.materialIndex := by
          simp [firstFaceMatId, hface]
        have hget : d.materials.get? f.materialIndex
            = some (d.materials.get ⟨f.materialIndex, hmi⟩) := List.get?_eq_get hmi
        obtain ⟨ps0, ms0, dw0, hrec, hlen0, hp0⟩ := ih (firstFaceMatId s prev)
          (dictInsert mats (d.materials.get ⟨f.materialIndex, hmi⟩).name
            (d.materials.get ⟨f.materialIndex, hmi⟩)) hinvt
        refine ⟨(relpath ++ "/" ++ (d.materials.get ⟨f.materialIndex, hmi⟩).name ++ ".json")
          :: ps0, ms0, dw0, ?_, by simp [hlen0], ?_⟩
        · rw [hmid] at hrec
          simp only [export_mappings_loop, hinst, hdd, hde, Bool.false_eq_true, if_false,
            hmid, hget, hrec]
        · intro i h1 h2
          cases i with
          | zero =>
            simp only [List.get_eq_getElem, List.getElem_cons_zero]
            simp [pathFor, hinst, hdd, hde, hface, List.getElem?_eq_getElem hmi]
          | succ n =>
            simp only [List.get_eq_getElem, List.getElem_cons_succ]
            have hn1 : n < ps0.length := by simpa using h1
            have hn2 : n < t.length := by simpa using h2
            simpa [List.get_eq_getElem] using hp0 n hn1 hn2

/-- C4: for a hierarchy whose datablock names are unique (the host
guarantee), export_mappings succeeds on the generated mesh list, the
mapping list and the meshInstances list have the same length (same double
enumeration), and the mapping entry at every index i is the expected path
for the sub-mesh meshInstances[i].mesh: the relative path to the material
file of the material used by the first face of that sub-mesh, or the None
dummy path when the first instance has no mesh data or no materials. -/
theorem C4_mapping_alignment (objs : List Obj) (relpath : String)
    (hdata : ∀ o1 ∈ objs, ∀ o2 ∈ objs,
      (dataOf o1).name = (dataOf o2).name → dataOf o1 = dataOf o2) :
    ∃ ps ms dw,
      export_mappings relpath (generate_mesh_list objs) = some (ps, ms, dw) ∧
      ps.length = (generate_instance_data (generate_mesh_list objs)).length ∧
      ∀ i (h1 : i < ps.length)
        (h2 : i < (generate_instance_data (generate_mesh_list objs)).length)
        (h3 : ((generate_instance_data (generate_mesh_list objs)).get ⟨i, h2⟩).mesh
                < (generate_mesh_list objs).length),
        ps.get ⟨i, h1⟩ = pathFor relpath
          ((generate_mesh_list objs).get
            ⟨((generate_instance_data (generate_mesh_list objs)).get ⟨i, h2⟩).mesh, h3⟩) := by
  have hinv := generate_mesh_list_inv objs hdata
  obtain ⟨ps, ms0, dw, hsome, hlen, hpaths⟩ :=
    export_loop_paths relpath (mappingListOf (generate_mesh_list objs)) none []
      (fun s hsm => hinv s (mem_mappingListOf _ s hsm))
  refine ⟨ps, ms0.map (fun p => p.2), dw, ?_, ?_, ?_⟩
  · rw [export_mappings, hsome]
    rfl
  · rw [hlen, mappingListOf_length, generate_instance_data, instanceDataAux_length]
  · intro i h1 h2 h3
    rcases instanceData_mappingList_align (generate_mesh_list objs) 0 1 i h2
      with ⟨ha1, _, ha3, ha4⟩
    have hmesh0 : ((generate_instance_data (generate_mesh_list objs)).get ⟨i, h2⟩).mesh - 0
        < (generate_mesh_list objs).length := ha3
    have hthis : (mappingListOf (generate_mesh_list objs)).get ⟨i, ha1⟩
        = (generate_mesh_list objs).get
          ⟨((generate_instance_data (generate_mesh_list objs)).get ⟨i, h2⟩).mesh - 0, hmesh0⟩ :=
      ha4 ha1 ha3
    rw [hpaths i h1 ha1, hthis]
    simp

/-- Witness for C4 at the one-object hierarchy carrying a two-material
mesh. -/
theorem C4_witness :
    (∀ o1 ∈ ([c5Obj] : List Obj), ∀ o2 ∈ ([c5Obj] : List Obj),
      (dataOf o1).name = (dataOf o2).name → dataOf o1 = dataOf o2) ∧
    ∃ ps ms dw,
      export_mappings "mats" (generate_mesh_list [c5Obj]) = some (ps, ms, dw) ∧
      ps.length = (generate_instance_data (generate_mesh_list [c5Obj])).length ∧
      ∀ i (h1 : i < ps.length)
        (h2 : i < (generate_instance_data (generate_mesh_list [c5Obj])).length)
        (h3 : ((generate_instance_data (generate_mesh_list [c5Obj])).get ⟨i, h2⟩).mesh
                < (generate_mesh_list [c5Obj]).length),
        ps.get ⟨i, h1⟩ = pathFor "mats"
          ((generate_mesh_list [c5Obj]).get
            ⟨((generate_instance_data (generate_mesh_list [c5Obj])).get ⟨i, h2⟩).mesh, h3⟩) :=
  ⟨by decide, C4_mapping_alignment [c5Obj] "mats" (by decide)⟩
